import Mathlib

/-!
Verification development for the CAA auditor.

The Python sources are shallowly embedded as executable Lean definitions:

* JSON values (`json.loads` results and the catalog record) become `JVal`;
  Python `None` is `JVal.null`.  JSON numbers are modelled as integers
  (the fields the program reads – timestamps, ids – are integral).
* Fallible dynamic operations (`d[k]`, `d.get`, iteration, `in`) become
  `Except String` computations whose error is the Python exception class
  name (`"KeyError"`, `"TypeError"`, `"AttributeError"`, …).
* The HTTP fetches performed by `IAItem` are modelled as task inputs
  (`TaskEnv`): the parsed `metadata` JSON, the pending-tasks flag, and the
  raw `index.json` together with the outcome of `json.loads` on it.
* Logging calls are side effects with no influence on the produced data
  and are not modelled.
-/

namespace CAAAudit

/-- JSON/Python value model.  `null` doubles as Python `None`. -/
inductive JVal where
  | null
  | b (x : Bool)
  | i (x : Int)
  | s (x : String)
  | arr (xs : List JVal)
  | obj (kvs : List (String × JVal))

/-- Python's default recursion limit (`sys.getrecursionlimit()`); nesting
deeper than this raises `RecursionError`. -/
def PY_RECURSION_LIMIT : Nat := 1000

/-- Pointwise list equality, parametric in the element comparison (the
per-element loop is iterative in CPython, so it consumes no stack). -/
def pyEqListWith (eq : JVal → JVal → Bool) : List JVal → List JVal → Bool
  | [], [] => true
  | x :: xs, y :: ys => eq x y && pyEqListWith eq xs ys
  | _, _ => false

/-- First value bound to key `k`, compared with `eq`. -/
def pyEqFindWith (eq : JVal → JVal → Bool) (k : String) (v : JVal) :
    List (String × JVal) → Bool
  | [] => false
  | (k', w) :: rest => if k == k' then eq v w else pyEqFindWith eq k v rest

/-- Dict equality body: every key of `xs` maps to an `eq`-equal value in `ys`. -/
def pyEqObjWith (eq : JVal → JVal → Bool) : List (String × JVal) → List (String × JVal) → Bool
  | [], _ => true
  | (k, v) :: rest, ys => pyEqFindWith eq k v ys && pyEqObjWith eq rest ys

/-- Python `==` at bounded nesting depth: the fuel models the interpreter
stack, consumed once per nesting level (containers recurse, element loops
do not). -/
def pyEqFuel : Nat → JVal → JVal → Bool
  | 0, _, _ => false
  | n + 1, a, c =>
      match a, c with
      | .null, .null => true
      | .b x, .b y => x == y
      | .b x, .i m => (if x then (1 : Int) else 0) == m
      | .i m, .b x => m == (if x then (1 : Int) else 0)
      | .i m, .i k => m == k
      | .s u, .s v => u == v
      | .arr xs, .arr ys => pyEqListWith (pyEqFuel n) xs ys
      | .obj xs, .obj ys => xs.length == ys.length && pyEqObjWith (pyEqFuel n) xs ys
      | _, _ => false

/-- Python `==` on the values above.  `True == 1` holds in Python, hence
the bool/int coercion cases.  List equality is pointwise, dict equality
is key-set plus pointwise value equality. -/
def pyEq (a c : JVal) : Bool :=
  pyEqFuel PY_RECURSION_LIMIT a c

/-- Python truthiness: `bool(x)`. -/
def pyTruthy : JVal → Bool
  | .null => false
  | .b x => x
  | .i n => n != 0
  | .s t => !(t == "")
  | .arr xs => !xs.isEmpty
  | .obj kvs => !kvs.isEmpty

/-- `isinstance(x, (str, int, bool, float))`. -/
def isScalar : JVal → Bool
  | .b _ => true
  | .i _ => true
  | .s _ => true
  | _ => false

/-- Whether a value may be placed in a Python `set` (hashable). -/
def isHashable : JVal → Bool
  | .arr _ => false
  | .obj _ => false
  | _ => true

mutual
/-- `repr()` of a value (strings quoted; quote escaping not modelled). -/
def pyRepr : JVal → String
  | .s t => "'" ++ t ++ "'"
  | .i n => toString n
  | .b true => "True"
  | .b false => "False"
  | .null => "None"
  | .arr xs => "[" ++ pyReprList xs ++ "]"
  | .obj kvs => "\x7b" ++ pyReprObj kvs ++ "\x7d"
termination_by v => sizeOf v
decreasing_by all_goals simp_wf <;> omega

def pyReprList : List JVal → String
  | [] => ""
  | [x] => pyRepr x
  | x :: rest => pyRepr x ++ ", " ++ pyReprList rest
termination_by xs => sizeOf xs
decreasing_by all_goals simp_wf <;> omega

def pyReprObj : List (String × JVal) → String
  | [] => ""
  | [(k, v)] => "'" ++ k ++ "': " ++ pyRepr v
  | (k, v) :: rest => "'" ++ k ++ "': " ++ pyRepr v ++ ", " ++ pyReprObj rest
termination_by kvs => sizeOf kvs
decreasing_by all_goals simp_wf <;> omega
end

/-- `str()` of a value, as used in f-string interpolation. -/
def pyToStr : JVal → String
  | .s t => t
  | .i n => toString n
  | .b true => "True"
  | .b false => "False"
  | .null => "None"
  | .arr xs => "[" ++ pyReprList xs ++ "]"
  | .obj kvs => "\x7b" ++ pyReprObj kvs ++ "\x7d"

/-- f-string interpolation of the catalog `barcode` field (`None` when absent). -/
def pyStrOpt : Option String → String
  | none => "None"
  | some t => t

/-- `d.get(k, default)`; `AttributeError` on a non-dict receiver. -/
def jGetD (v : JVal) (k : String) (d : JVal) : Except String JVal :=
  match v with
  | .obj kvs => .ok ((List.lookup k kvs).getD d)
  | _ => .error "AttributeError"

/-- `d.get(k)` (default `None`). -/
def jGet (v : JVal) (k : String) : Except String JVal :=
  jGetD v k .null

/-- `d[k]` subscription: `KeyError` on a missing key, `TypeError` on
non-dict receivers (string/list indices must be integers). -/
def jSub (v : JVal) (k : String) : Except String JVal :=
  match v with
  | .obj kvs =>
      match List.lookup k kvs with
      | some w => .ok w
      | none => .error "KeyError"
  | _ => .error "TypeError"

/-- Python `k in v`: key membership for dicts, `==`-membership for lists,
substring for strings, `TypeError` otherwise. -/
def jContains (v : JVal) (k : String) : Except String Bool :=
  match v with
  | .obj kvs => .ok (kvs.any (fun kv => kv.1 == k))
  | .arr xs => .ok (xs.any (fun x => pyEq (.s k) x))
  | .s t => .ok ((t.data.tails).any (fun suf => k.data.isPrefixOf suf))
  | _ => .error "TypeError"

/-- `d.keys()` (in insertion order); `AttributeError` on non-dicts. -/
def jKeys (v : JVal) : Except String (List String) :=
  match v with
  | .obj kvs => .ok (kvs.map (fun kv => kv.1))
  | _ => .error "AttributeError"

/-- Python iteration: lists yield elements, strings yield one-character
strings, dicts yield their keys; other values raise `TypeError`. -/
def jIter (v : JVal) : Except String (List JVal) :=
  match v with
  | .arr xs => .ok xs
  | .s t => .ok (t.data.map (fun c => JVal.s (String.mk [c])))
  | .obj kvs => .ok (kvs.map (fun kv => JVal.s kv.1))
  | _ => .error "TypeError"

/-- `set(xs)` modelled as a duplicate-free list (first occurrence kept;
Python's set iteration order is unspecified, insertion order is used). -/
def pyDedup (xs : List JVal) : List JVal :=
  xs.foldl (fun acc x => if acc.any (pyEq x) then acc else acc ++ [x]) []

/-- Set equality: mutual `==`-membership. -/
def pySetEq (xs ys : List JVal) : Bool :=
  xs.all (fun x => ys.any (pyEq x)) && ys.all (fun y => xs.any (pyEq y))

/-- `set(v)` for an arbitrary value: iterate, then require hashable elements. -/
def pySetOf (v : JVal) : Except String (List JVal) := do
  let xs ← jIter v
  if xs.any (fun x => !isHashable x) then
    .error "TypeError"
  else
    .ok (pyDedup xs)

/-- Duplicate-free variant for string sets (Python set literals). -/
def dedupStr (xs : List String) : List String :=
  xs.foldl (fun acc x => if acc.contains x then acc else acc ++ [x]) []

/-- Set equality on string key sets (`d.keys() == {...}`). -/
def strSetEq (xs ys : List String) : Bool :=
  xs.all (fun x => ys.contains x) && ys.all (fun y => xs.contains y)

/-- Boolean string-prefix test on the underlying character lists. -/
def strStarts (d p : String) : Bool :=
  p.data.isPrefixOf d.data

/-- The characters before the first `::` occurrence (all of them when there
is none). -/
def firstSegAux : List Char → List Char
  | [] => []
  | ':' :: ':' :: _ => []
  | c :: rest => c :: firstSegAux rest

/-- `description.split('::')[0]`, the `category[0]` view of `audit_result.py`. -/
def firstSeg (d : String) : String :=
  String.mk (firstSegAux d.data)

/-!
## `audit_result.py`

The result classes form a closed sum tagged by `check_state`.  Note that
`audit_task.py` additionally imports a `CheckSkipped` class that
`audit_result.py` does not define; it is modelled as a fourth state.  The
`additional_data` payload is purely diagnostic (the aggregator journal and
every report writer use only `mbid`, `check_description` and `check_state`)
and is omitted.
-/

inductive CheckState where
  | passed
  | failed
  | itemSkipped
  | checkSkipped
deriving DecidableEq, Repr

structure CheckResult where
  state : CheckState
  mbid : String
  desc : String
deriving DecidableEq, Repr

/-- The `check_state` class attribute, as written to the journal. -/
def checkStateStr : CheckState → String
  | .passed => "PASSED"
  | .failed => "FAILED"
  | .itemSkipped => "ITEM SKIPPED"
  | .checkSkipped => "SKIPPED"

/-- `AuditTask._simple_check` (the logging arguments are dropped). -/
def simpleCheck (mbid category : String) (success : Bool) : CheckResult :=
  if success then ⟨.passed, mbid, category⟩ else ⟨.failed, mbid, category⟩

/-!
## Catalog record (`transform_data.py` output, read by `audit_task.py`)

`audit_task.py` reads `release_gid`, `release_name`, `artists`
(`artist_name` / `artist_gid`), `release_dates`, `language_code`,
`barcode`, `asins`, `covers` (`id`, `extension`, `edit_id`,
`edit_approved`, `comment`, `types`) and `max_last_modified` from the
input record; the record is modelled as a structure with those fields.
`language_code` is kept as a raw value because `transform_data.py` emits
either a string or `False` for it.  `max_last_modified` is the
`pendulum.parse`d timestamp, modelled as an integer (only its order is
used).
-/

structure MBArtist where
  artist_name : String
  artist_gid : String
deriving DecidableEq, Repr

structure MBCover where
  id : Int
  edit_id : Int
  edit_approved : Bool
  comment : String
  types : List String
  extension : String
deriving DecidableEq, Repr

structure MBState where
  release_gid : String
  release_name : String
  artists : List MBArtist
  release_dates : List String
  language_code : JVal
  barcode : Option String
  asins : List String
  covers : List MBCover
  max_last_modified : Int

/-- The field names of the cover dict produced by `extract_cover`, in
insertion order; iterating the dict yields these keys. -/
def coverDictKeys : List String :=
  ["id", "edit_id", "edit_approved", "comment", "types", "extension"]

/-!
## `abstractions.py`: `IAFile` and `IAFiles`

A file entry is a JSON object (`JSONObject`), modelled as an association
list.  `IAFile.__init__` raises `AttributeError` when the `name` value is
not a string (`.startswith` / `.removeprefix` on a non-string).
-/

structure IAFile where
  original_name : String
  name : String
  original : JVal
  is_derived : Bool
  is_historical : Bool
  revno : Option Nat
  filedata : List (String × JVal)

/-- Decimal value of a digit list (`int()` of the matched group). -/
def digitsVal (cs : List Char) : Nat :=
  cs.foldl (fun a c => a * 10 + (c.toNat - '0'.toNat)) 0

/-- `re.search(r'~(\d+)~$', name)` and `re.sub(r'~\d+~$', '', name)`:
returns the name with a trailing `~<digits>~` removed together with the
revision number, or the name unchanged.  (`\d` is modelled as the ASCII
digits.) -/
def stripRevSuffix (n : String) : String × Option Nat :=
  match n.data.reverse with
  | '~' :: rest =>
      let ds := rest.takeWhile (fun c => c.isDigit)
      match ds, rest.drop ds.length with
      | [], _ => (n, none)
      | _ :: _, '~' :: _ =>
          (String.mk ((rest.drop (ds.length + 1)).reverse), some (digitsVal ds.reverse))
      | _, _ => (n, none)
  | _ => (n, none)

/-- `IAFile.__init__`. -/
def IAFile.ofJson (filedata : List (String × JVal)) : Except String IAFile :=
  match (List.lookup "name" filedata).getD (.s "") with
  | .s original_name =>
      let is_derived := pyEq ((List.lookup "source" filedata).getD (.s "original")) (.s "derivative")
      let original := (List.lookup "original" filedata).getD .null
      if "history/files/".data.isPrefixOf original_name.data then
        let stripped := String.mk (original_name.data.drop "history/files/".length)
        let nmrv := stripRevSuffix stripped
        .ok ⟨original_name, nmrv.1, original, is_derived, true, nmrv.2, filedata⟩
      else
        .ok ⟨original_name, original_name, original, is_derived, false, none, filedata⟩
  | _ => .error "AttributeError"

/-- Python dict assignment `m[k] = v`: overwrite in place or append. -/
def dictSet {α : Type} (m : List (String × α)) (k : String) (v : α) : List (String × α) :=
  match m with
  | [] => [(k, v)]
  | (k', v') :: rest => if k' = k then (k', v) :: rest else (k', v') :: dictSet rest k v

/-- `defaultdict(list)` append `m[k].append(v)`. -/
def dictAppend {α : Type} (m : List (String × List α)) (k : String) (v : α) : List (String × List α) :=
  match m with
  | [] => [(k, [v])]
  | (k', vs) :: rest => if k' = k then (k', vs ++ [v]) :: rest else (k', vs) :: dictAppend rest k v

structure IAFiles where
  original_files : List (String × IAFile)
  derived_files : List (String × IAFile)
  history_files : List (String × List IAFile)

/-- The loop body of `IAFiles.__init__`: place one parsed file in exactly
one of the three indexes (historical first, then derivative, else original). -/
def IAFiles.place (st : IAFiles) (iaf : IAFile) : IAFiles :=
  if iaf.is_historical then
    { st with history_files := dictAppend st.history_files iaf.name iaf }
  else if iaf.is_derived then
    { st with derived_files := dictSet st.derived_files iaf.name iaf }
  else
    { st with original_files := dictSet st.original_files iaf.name iaf }

/-- `IAFiles.__init__` over a `JSONArray[JSONObject]` file list. -/
def IAFiles.build (filelist : List (List (String × JVal))) : Except String IAFiles :=
  filelist.foldlM (fun st f => do
    let iaf ← IAFile.ofJson f
    pure (IAFiles.place st iaf)) ⟨[], [], []⟩

/-- The parsed file sequence (files whose construction succeeds, in order). -/
def parsedFiles (filelist : List (List (String × JVal))) : List IAFile :=
  filelist.filterMap (fun f => (IAFile.ofJson f).toOption)

/-- Last file in `gs` satisfying `p` with logical name `n` (dict overwrite
semantics keep the last assignment). -/
def lastWithName (gs : List IAFile) (p : IAFile → Bool) (n : String) : Option IAFile :=
  (gs.filter (fun g => p g && g.name == n)).getLast?

/-- All historical files with logical name `n`, in list order. -/
def histWithName (gs : List IAFile) (n : String) : List IAFile :=
  (gs.filter (fun g => g.is_historical && g.name == n))

/-!
## `result_aggregator.py`
-/

/-- `res.category[0] == 'InternalError'`. -/
def isInternalRes (r : CheckResult) : Bool :=
  firstSeg r.desc == "InternalError"

/-- The number of `InternalError::*` results in a list. -/
def countInternal (rs : List CheckResult) : Nat :=
  (rs.filter isInternalRes).length

inductive ProgressSignal where
  | task_skipped
  | task_failed
  | task_success
deriving DecidableEq, Repr

/-- One journal line: `mbid \t description \t state` (the trailing
`os.linesep` is left implicit). -/
def journalLine (r : CheckResult) : String :=
  r.mbid ++ "\t" ++ r.desc ++ "\t" ++ checkStateStr r.state

/-- Result of a successful `ResultAggregator.put` call: the new internal
error counter, the journal lines written, and the progress transitions
fired during the call. -/
structure PutOk where
  counter : Nat
  journal : List String
  signals : List ProgressSignal
deriving DecidableEq, Repr

/-- The `for res in audit_results` loop of `ResultAggregator.put`:
`_flag_internal_error` increments the counter and raises `RuntimeError`
once it exceeds 10; then the skip/fail flags and the journal line. -/
def putLoop (counter : Nat) (rs : List CheckResult) (journal : List String)
    (skipped failed : Bool) : Except String (Nat × List String × Bool × Bool) :=
  match rs with
  | [] => .ok (counter, journal, skipped, failed)
  | r :: rest =>
      if isInternalRes r then
        if counter + 1 > 10 then
          .error "RuntimeError"
        else
          putLoop (counter + 1) rest (journal ++ [journalLine r])
            (skipped || r.state == .itemSkipped) (failed || r.state == .failed)
      else
        putLoop counter rest (journal ++ [journalLine r])
          (skipped || r.state == .itemSkipped) (failed || r.state == .failed)

namespace ResultAggregator

/-- `ResultAggregator.put`: process the batch, then fire exactly one
progress transition, skipped taking precedence over failed over success. -/
def put (counter : Nat) (rs : List CheckResult) : Except String PutOk :=
  match putLoop counter rs [] false false with
  | .error e => .error e
  | .ok (c, j, sk, fl) =>
      .ok ⟨c, j, if sk then [.task_skipped] else if fl then [.task_failed] else [.task_success]⟩

/-- A whole run's sequence of `put` calls, threading the internal error
counter (each task pushes one batch). -/
def putMany (counter : Nat) (batches : List (List CheckResult)) : Except String Nat :=
  match batches with
  | [] => .ok counter
  | rs :: rest =>
      match put counter rs with
      | .error e => .error e
      | .ok out => putMany out.counter rest

end ResultAggregator

/-!
## `audit_task.py`

The audit task's network interactions are inputs: the parsed item
metadata, the pending-tasks answer, and the raw `index.json` (`none` when
the fetch 404s) together with the result of `json.loads` on it (`none`
for a `JSONDecodeError`).
-/

structure TaskEnv where
  mbstate : MBState
  ia_meta : JVal
  has_pending_tasks : Bool
  caa_index : Option (Option JVal)

/-- `get_as_list` of `_run_metadata_checks`: `metadata.get(key)`, `None`
becomes `[]`, a list is returned as is, a scalar is wrapped. -/
def getAsList (metadata : JVal) (key : String) : Except String (List JVal) := do
  let data ← jGet metadata key
  match data with
  | .null => pure []
  | .arr xs => pure xs
  | v => pure [v]

/-- `get_single` of `_run_metadata_checks`: a `Metadata::Precheck::<key> is
singular` result plus the value (Python `None` → `.null`) when it is a
single scalar. -/
def getSingle (mbid : String) (metadata : JVal) (key : String) (default : JVal) :
    Except String (JVal × CheckResult) := do
  let data ← jGetD metadata key default
  match data with
  | .null => pure (.null, ⟨.failed, mbid, "Metadata::Precheck::" ++ key ++ " is singular"⟩)
  | v =>
      if isScalar v then
        pure (v, ⟨.passed, mbid, "Metadata::Precheck::" ++ key ++ " is singular"⟩)
      else
        pure (.null, ⟨.failed, mbid, "Metadata::Precheck::" ++ key ++ " is singular"⟩)

/-- The expected external identifier set literal of `_run_metadata_checks`
(insertion order; note that the `urn:barcode:` entry is built
unconditionally, interpolating `None` when the catalog has no barcode). -/
def expectedExtIds (mb : MBState) : List String :=
  ("urn:mb_release_id:" ++ mb.release_gid) ::
    (mb.artists.map (fun a => "urn:mb_artist_id:" ++ a.artist_gid) ++
     mb.asins.map (fun a => "urn:asin:" ++ a) ++
     ["urn:barcode:" ++ pyStrOpt mb.barcode])

/-- `AuditTask._run_metadata_checks`.  A non-string creator raises
`TypeError` (either unhashable in `set(...)` or non-string in the
`'; '.join(...)` of the log message, which is evaluated on every call). -/
def run_metadata_checks (mb : MBState) (ia_meta : JVal) : Except String (List CheckResult) := do
  let mbid := mb.release_gid
  let metadata ← jSub ia_meta "metadata"
  let collections ← getAsList metadata "collection"
  let r_coll := simpleCheck mbid "Metadata::in caa collection"
    (collections.any (fun c => pyEq (.s "coverartarchive") c))
  let noindex ← getSingle mbid metadata "noindex" (.b false)
  let r_noindex := simpleCheck mbid "Metadata::item is noindex" (pyTruthy noindex.1)
  let mediatype ← getSingle mbid metadata "mediatype" .null
  let r_mediatype := simpleCheck mbid "Metadata::mediatype is image"
    (pyEq mediatype.1 (.s "image"))
  let title ← getSingle mbid metadata "title" .null
  let r_title := simpleCheck mbid "Metadata::title correct"
    (pyEq title.1 (.s mb.release_name))
  let creators ← getAsList metadata "creator"
  let _ ← (if creators.any (fun v => match v with | .s _ => false | _ => true) then
    Except.error "TypeError" else Except.ok PUnit.unit)
  let r_creators := simpleCheck mbid "Metadata::creators correct"
    (pySetEq creators (mb.artists.map (fun a => .s a.artist_name)))
  let date ← getSingle mbid metadata "date" .null
  let r_date := simpleCheck mbid "Metadata::date correct"
    ((decide (mb.release_dates ≠ []) == pyTruthy date.1) &&
      mb.release_dates.any (fun d => pyEq date.1 (.s d)))
  let language ← getSingle mbid metadata "language" .null
  let r_language := simpleCheck mbid "Metadata::language correct"
    (pyEq mb.language_code language.1)
  let ext_id_vals ← getAsList metadata "external-identifier"
  let _ ← (if ext_id_vals.any (fun v => !isHashable v) then
    Except.error "TypeError" else Except.ok PUnit.unit)
  let external_ids := pyDedup ext_id_vals
  let expected := expectedExtIds mb
  let unexpected := external_ids.map (fun o =>
    simpleCheck mbid "Metadata::unexpected external id"
      (expected.any (fun e => pyEq o (.s e))))
  let missing := (dedupStr expected).map (fun e =>
    simpleCheck mbid "Metadata::missing external id"
      (ext_id_vals.any (fun o => pyEq (.s e) o)))
  -- note: the `language` precheck result is computed but never yielded in
  -- the source, hence it does not appear below
  pure ([r_coll, noindex.2, r_noindex, mediatype.2, r_mediatype, title.2, r_title,
         r_creators, date.2, r_date, r_language] ++ unexpected ++ missing)

/-- `get_file` of `_run_files_checks`: the first file dict whose `name`
equals the argument.  The generator is lazy, so elements after the first
match are not touched; a non-dict element reached raises `AttributeError`. -/
def getFile (files : List JVal) (name : String) : Except String (Option JVal) :=
  match files with
  | [] => .ok none
  | f :: rest =>
      match f with
      | .obj kvs =>
          if pyEq ((List.lookup "name" kvs).getD .null) (.s name) then
            .ok (some f)
          else
            getFile rest name
      | _ => .error "AttributeError"

/-- The `images_with_id` list comprehension: original files whose name
starts with `mbid-<MBID>-<id>.`.  `.startswith` on a non-string name
raises `AttributeError`. -/
def imagesWithId (files : List JVal) (pat : String) : Except String (List JVal) :=
  match files with
  | [] => .ok []
  | f :: rest => do
      let kvs ← (match f with
        | .obj kvs => Except.ok kvs
        | _ => Except.error "AttributeError")
      let isMatch ← (match (List.lookup "name" kvs).getD (.s "") with
        | .s nm => Except.ok (pat.data.isPrefixOf nm.data)
        | _ => Except.error "AttributeError")
      let keep := isMatch && pyEq ((List.lookup "source" kvs).getD .null) (.s "original")
      let rest' ← imagesWithId rest pat
      pure (if keep then f :: rest' else rest')

/-- The per-cover loop of `_run_files_checks`. -/
def filesCoverChecks (mbid : String) (files : List JVal) (covers : List MBCover) :
    Except String (List CheckResult) :=
  match covers with
  | [] => .ok []
  | c :: rest => do
      let orig ← getFile files ("mbid-" ++ mbid ++ "-" ++ toString c.id ++ "." ++ c.extension)
      let r_orig := simpleCheck mbid "Files::original image exists" orig.isNone
      let t250 ← getFile files ("mbid-" ++ mbid ++ "-" ++ toString c.id ++ "_thumb250.jpg")
      let r_250 := simpleCheck mbid "Files::250px thumbnail exists" t250.isNone
      let t500 ← getFile files ("mbid-" ++ mbid ++ "-" ++ toString c.id ++ "_thumb500.jpg")
      let r_500 := simpleCheck mbid "Files::500px thumbnail exists" t500.isNone
      let t1200 ← getFile files ("mbid-" ++ mbid ++ "-" ++ toString c.id ++ "_thumb1200.jpg")
      let r_1200 := simpleCheck mbid "Files::1200px thumbnail exists" t1200.isNone
      let withId ← imagesWithId files ("mbid-" ++ mbid ++ "-" ++ toString c.id ++ ".")
      let r_unique := simpleCheck mbid "Files::image id is unique" (withId.length == 1)
      let more ← filesCoverChecks mbid files rest
      pure (r_orig :: r_250 :: r_500 :: r_1200 :: r_unique :: more)

/-- `AuditTask._run_files_checks`.  Note that `has_file` in the source
returns `get_file(name) is None`, so every existence check succeeds
exactly when the file is absent. -/
def run_files_checks (mb : MBState) (ia_meta : JVal) : Except String (List CheckResult) := do
  let mbid := mb.release_gid
  let filesVal ← jGetD ia_meta "files" (.arr [])
  let files ← jIter filesVal
  let g_index ← getFile files "index.json"
  let r_index := simpleCheck mbid "Files::index.json exists" g_index.isNone
  let g_mb ← getFile files "mb_metadata.xml"
  let r_mb := simpleCheck mbid "Files::mb_metadata.xml exists" g_mb.isNone
  let coverResults ← filesCoverChecks mbid files mb.covers
  pure (r_index :: r_mb :: coverResults)

/-!
### `index_schema.py` and `_verify_schema_rec`

In the source, the `isinstance` type check tests the *schema* value
itself (`isinstance(schema, exp_type)`), and its result is never yielded:
for a leaf schema (the classes `str`/`int`/`bool`) it always fails,
silently pruning the recursion; for dict/list schemas it always passes.
-/

inductive Schema where
  | tstr
  | tint
  | tbool
  | sobj (fields : List (String × Schema))
  | sarr (elem : Schema)

/-- `INDEX_SCHEMA` of `index_schema.py`. -/
def INDEX_SCHEMA : Schema :=
  .sobj [
    ("release", .tstr),
    ("images", .sarr (.sobj [
      ("approved", .tbool),
      ("back", .tbool),
      ("comment", .tstr),
      ("edit", .tint),
      ("front", .tbool),
      ("id", .tint),
      ("image", .tstr),
      ("thumbnails", .sobj [
        ("250", .tstr),
        ("500", .tstr),
        ("1200", .tstr),
        ("small", .tstr),
        ("large", .tstr)]),
      ("types", .sarr .tstr)]))]

/-- The key presence loop: `for k in schema.keys(): yield check(k in index)`. -/
def schemaKeyChecks (mbid : String) (index : JVal) (fields : List (String × Schema))
    (path : String) : Except String (List CheckResult) :=
  match fields with
  | [] => .ok []
  | (k, _) :: rest => do
      let mem ← jContains index k
      let more ← schemaKeyChecks mbid index rest path
      pure (simpleCheck mbid ("CAAIndex::Schema::" ++ k ++ " in " ++ path) mem :: more)

/-- The value loop of `_verify_schema_rec`: recurse into `index[k]` for
each schema key present (`if k not in index: continue`).  The recursion
into the subschema is abstracted by `verify` — the loop itself is
iterative in Python. -/
def schemaValueChecksWith (verify : JVal → Schema → String → Except String (List CheckResult))
    (index : JVal) (fields : List (String × Schema)) (path : String) :
    Except String (List CheckResult) :=
  match fields with
  | [] => .ok []
  | (k, sub) :: rest => do
      let mem ← jContains index k
      let here ←
        (if mem then do
          let v ← jSub index k
          verify v sub (path ++ "." ++ k)
        else
          pure [])
      let more ← schemaValueChecksWith verify index rest path
      pure (here ++ more)

/-- The list-schema loop: recurse into every element with `schema[0]`. -/
def schemaElemChecksWith (verify : JVal → Schema → String → Except String (List CheckResult))
    (elems : List JVal) (sub : Schema) (path : String) :
    Except String (List CheckResult) :=
  match elems with
  | [] => .ok []
  | e :: rest => do
      let here ← verify e sub path
      let more ← schemaElemChecksWith verify rest sub path
      pure (here ++ more)

/-- `AuditTask._verify_schema_rec` at bounded recursion depth (the fuel
models the interpreter stack, one unit per nesting level; exhaustion is
Python's `RecursionError`).  The `full_path` argument only feeds log
messages and is dropped. -/
def verifySchemaFuel (mbid : String) : Nat → JVal → Schema → String →
    Except String (List CheckResult)
  | 0, _, _, _ => .error "RecursionError"
  | n + 1, index, schema, path =>
      match schema with
      | .tstr => .ok []
      | .tint => .ok []
      | .tbool => .ok []
      | .sobj fields => do
          let keyResults ←
            (if path == "root.images[].thumbnails" then do
              let ks ← jKeys index
              pure [simpleCheck mbid ("CAAIndex::Schema::" ++ path ++ " is new-style")
                (strSetEq ks ["small", "large", "250", "500", "1200"])]
            else do
              let presence ← schemaKeyChecks mbid index fields path
              let ks ← jKeys index
              let extras := ks.filter (fun k => !(fields.any (fun kv => kv.1 == k)))
              pure (presence ++ extras.map (fun k =>
                simpleCheck mbid ("CAAIndex::Schema::unexpected " ++ k ++ " in " ++ path) true)))
          let valueResults ← schemaValueChecksWith
            (fun i s p => verifySchemaFuel mbid n i s p) index fields path
          pure (keyResults ++ valueResults)
      | .sarr sub => do
          let elems ← jIter index
          schemaElemChecksWith (fun i s p => verifySchemaFuel mbid n i s p)
            elems sub (path ++ "[]")

/-- `AuditTask._verify_schema_rec`, entered at the interpreter's
recursion limit. -/
def verify_schema_rec (mbid : String) (index : JVal) (schema : Schema) (path : String) :
    Except String (List CheckResult) :=
  verifySchemaFuel mbid PY_RECURSION_LIMIT index schema path

/-- `dict` assignment with integer keys (for `cover_id_to_cover`). -/
def dictSetInt {α : Type} (m : List (Int × α)) (k : Int) (v : α) : List (Int × α) :=
  match m with
  | [] => [(k, v)]
  | (k', v') :: rest => if k' = k then (k', v) :: rest else (k', v') :: dictSetInt rest k v

/-- `cover_id_to_cover = {cover['id']: cover for cover in covers}`. -/
def coverDictOf (covers : List MBCover) : List (Int × MBCover) :=
  covers.foldl (fun m c => dictSetInt m c.id c) []

/-- `[c for c in ia_images if c['id'] == cover_id]`. -/
def imagesMatching (imgs : List JVal) (cover_id : Int) : Except String (List JVal) :=
  match imgs with
  | [] => .ok []
  | c :: rest => do
      let idVal ← jSub c "id"
      let rest' ← imagesMatching rest cover_id
      pure (if pyEq idVal (.i cover_id) then c :: rest' else rest')

/-- The `for cover_id in cover_id_to_cover` loop of `_run_index_checks`
(lines 403-418): the `missing image` and `image id is unique` checks.
Note the source's success condition for `missing image` is
`len(matching_covers) > 1`. -/
def coverLoopChecks (mbid : String) (imgs : List JVal) (coverDict : List (Int × MBCover)) :
    Except String (List CheckResult) :=
  match coverDict with
  | [] => .ok []
  | (cover_id, _) :: rest => do
      let matching ← imagesMatching imgs cover_id
      let r_missing := simpleCheck mbid "CAAIndex::Image::missing image"
        (decide (matching.length > 1))
      let r_unique := simpleCheck mbid "CAAIndex::Image::image id is unique"
        (decide (matching.length ≤ 1))
      let more ← coverLoopChecks mbid imgs rest
      pure (r_missing :: r_unique :: more)

/-- The per-image body of the `for image in ia_images` loop of
`_run_index_checks` (lines 420-513).

The `main_front_id` / `main_back_id` generators iterate the *cover dict*
(`for c in caa_image`), so when the guard `'Front' in caa_image['types']`
(resp. `'Back'`) holds, the first key string is subscripted and a
`TypeError` is raised; otherwise the generator is empty and `next`
returns `None`.  The skip guard for the front/back checks tests
`edit_cr` (as written in the source), and the back check reuses the
`CAAIndex::Image::front` description (source line 487). -/
def imagePerChecks (mbid : String) (image : JVal) (coverDict : List (Int × MBCover)) :
    Except String (List CheckResult) := do
  let idVal ← jSub image "id"
  let inDict := coverDict.any (fun kv => pyEq idVal (.i kv.1))
  let r_unexp := simpleCheck mbid "CAAIndex::Image::unexpected image" inDict
  if !inDict then
    pure [r_unexp]
  else do
    let caa ← (match coverDict.find? (fun kv => pyEq idVal (.i kv.1)) with
      | some kv => Except.ok kv.2
      | none => Except.error "KeyError")
    let editVal ← jSub image "edit"
    let edit_ok := pyEq editVal (.i caa.edit_id)
    let edit_cr := simpleCheck mbid "CAAIndex::Image::edit" edit_ok
    let r_approval ←
      (if !edit_ok then
        pure (⟨.checkSkipped, mbid, "CAAIndex::Image::edit approval status"⟩ : CheckResult)
      else do
        let approvedVal ← jSub image "approved"
        pure (simpleCheck mbid "CAAIndex::Image::edit approval status"
          (pyEq approvedVal (.b caa.edit_approved))))
    let commentVal ← jSub image "comment"
    let r_comment := simpleCheck mbid "CAAIndex::Image::comment"
      (pyEq commentVal (.s caa.comment))
    let typesVal ← jSub image "types"
    let typesSet ← pySetOf typesVal
    let r_types := simpleCheck mbid "CAAIndex::Image::types"
      (pySetEq typesSet (caa.types.map (fun t => .s t)))
    let _ ← (if caa.types.contains "Front" then
      Except.error "TypeError" else Except.ok PUnit.unit)
    let _ ← (if caa.types.contains "Back" then
      Except.error "TypeError" else Except.ok PUnit.unit)
    let frontback ←
      (if !edit_ok then
        pure [(⟨.checkSkipped, mbid, "CAAIndex::Image::front"⟩ : CheckResult),
              (⟨.checkSkipped, mbid, "CAAIndex::Image::back"⟩ : CheckResult)]
      else do
        let frontVal ← jSub image "front"
        let r_front := simpleCheck mbid "CAAIndex::Image::front"
          (pyEq frontVal (.b (pyEq idVal .null)))
        let backVal ← jSub image "back"
        let r_back := simpleCheck mbid "CAAIndex::Image::front"
          (pyEq backVal (.b (pyEq idVal .null)))
        pure [r_front, r_back])
    let urlVal ← jSub image "image"
    let r_url := simpleCheck mbid "CAAIndex::Image::image url"
      (pyEq urlVal (.s ("http://coverartarchive.org/release/" ++ mbid ++ "/" ++
        pyToStr idVal ++ "." ++ caa.extension)))
    let thumbVal ← jSub image "thumbnails"
    let thumbUrl := fun (size : String) =>
      "http://coverartarchive.org/release/" ++ mbid ++ "/" ++ pyToStr idVal ++ "-" ++ size ++ ".jpg"
    let r_thumb := simpleCheck mbid "CAAIndex::Image::thumbnails"
      (pyEq thumbVal (.obj [("small", .s (thumbUrl "250")), ("large", .s (thumbUrl "500")),
        ("250", .s (thumbUrl "250")), ("500", .s (thumbUrl "500")),
        ("1200", .s (thumbUrl "1200"))]))
    pure ([r_unexp, edit_cr, r_approval, r_comment, r_types] ++ frontback ++ [r_url, r_thumb])

/-- The `for image in ia_images` loop. -/
def imageLoopChecks (mbid : String) (imgs : List JVal) (coverDict : List (Int × MBCover)) :
    Except String (List CheckResult) :=
  match imgs with
  | [] => .ok []
  | image :: rest => do
      let here ← imagePerChecks mbid image coverDict
      let more ← imageLoopChecks mbid rest coverDict
      pure (here ++ more)

/-- `[image['id'] for image in ia_images]`. -/
def imageIds (imgs : List JVal) : Except String (List JVal) :=
  imgs.mapM (fun c => jSub c "id")

/-- Python `==` between the catalog id list and the observed id list. -/
def pyEqIds (as' : List Int) (bs : List JVal) : Bool :=
  as'.length == bs.length && (List.zip as' bs).all (fun p => pyEq (.i p.1) p.2)

/-- `AuditTask._run_index_checks`. -/
def run_index_checks (mb : MBState) (caa_index : Option (Option JVal)) :
    Except String (List CheckResult) := do
  let mbid := mb.release_gid
  let r_present := simpleCheck mbid "CAAIndex::is present" caa_index.isSome
  match caa_index with
  | none => pure [r_present]
  | some parsed =>
      match parsed with
      | none => pure [r_present, ⟨.failed, mbid, "CAAIndex::is well-formed"⟩]
      | some index => do
          let r_wf : CheckResult := ⟨.passed, mbid, "CAAIndex::is well-formed"⟩
          let schemaResults ← verify_schema_rec mbid index INDEX_SCHEMA "root"
          if schemaResults.any (fun r => r.state == .failed) then
            pure ([r_present, r_wf] ++ schemaResults)
          else do
            let releaseVal ← jSub index "release"
            let r_release := simpleCheck mbid "CAAIndex::release url correct"
              (pyEq releaseVal (.s ("https://musicbrainz.org/release/" ++ mbid)))
            let coverDict := coverDictOf mb.covers
            let imagesVal ← jSub index "images"
            let ia_images ← jIter imagesVal
            let missingUnique ← coverLoopChecks mbid ia_images coverDict
            let perImage ← imageLoopChecks mbid ia_images coverDict
            let index_order ← imageIds ia_images
            let r_order := simpleCheck mbid "CAAIndex::Image::order"
              (pyEqIds (mb.covers.map (fun c => c.id)) index_order)
            pure ([r_present, r_wf] ++ schemaResults ++ [r_release] ++
              missingUnique ++ perImage ++ [r_order])

/-- `pendulum.from_timestamp` on the value of `item_last_modified`:
accepts numbers (and bools, which are ints in Python), raises otherwise.
Timestamps are modelled as integers; only their order is used. -/
def asTimestamp (v : JVal) : Except String Int :=
  match v with
  | .i n => .ok n
  | .b x => .ok (if x then 1 else 0)
  | _ => .error "TypeError"

/-- `AuditTask._run`: the precondition stage, then the metadata, files and
index stages. -/
def run_main (env : TaskEnv) : Except String (List CheckResult) := do
  let mbid := env.mbstate.release_gid
  if !pyTruthy env.ia_meta then
    pure [⟨.failed, mbid, "Item::exists"⟩]
  else do
    let r_exists : CheckResult := ⟨.passed, mbid, "Item::exists"⟩
    if env.has_pending_tasks then
      pure [r_exists, ⟨.itemSkipped, mbid, "Item::has pending tasks"⟩]
    else do
      let darkVal ← jGetD env.ia_meta "is_dark" (.b false)
      if pyTruthy darkVal then
        pure [r_exists, ⟨.itemSkipped, mbid, "Item::darkened"⟩]
      else do
        let lmVal ← jSub env.ia_meta "item_last_modified"
        let ia_last_modified ← asTimestamp lmVal
        if ia_last_modified ≥ env.mbstate.max_last_modified then
          pure [r_exists, ⟨.itemSkipped, mbid, "Item::outdated mb state"⟩]
        else do
          let hasMeta ← jContains env.ia_meta "metadata"
          if !hasMeta then
            pure [r_exists, ⟨.failed, mbid, "Metadata::missing metadata key"⟩]
          else do
            let ms ← run_metadata_checks env.mbstate env.ia_meta
            let fs ← run_files_checks env.mbstate env.ia_meta
            let is' ← run_index_checks env.mbstate env.caa_index
            pure ([r_exists] ++ ms ++ fs ++ is')

/-- Observable outcome of `AuditTask.run` plus `_report_results`: the
collected results, whether the exception handler fired, the `CheckFailed`
lines written to `failures.log`, and the batch pushed to the aggregator. -/
structure TaskRunOutcome where
  results : List CheckResult
  had_exception : Bool
  failures_log : List CheckResult
  pushed : List CheckResult
deriving DecidableEq, Repr

/-- `AuditTask.run`: collect the `_run` results; any uncaught exception
(class name `e`) replaces them with the single
`ItemSkipped(mbid, 'InternalError::<e>')`; `_report_results` then writes
`failures.log` and pushes the batch either way. -/
def run_task (mbid : String) (outcome : Except String (List CheckResult)) : TaskRunOutcome :=
  match outcome with
  | .ok rs => ⟨rs, false, rs.filter (fun r => r.state == .failed), rs⟩
  | .error e =>
      let rs : List CheckResult := [⟨.itemSkipped, mbid, "InternalError::" ++ e⟩]
      ⟨rs, true, rs.filter (fun r => r.state == .failed), rs⟩

/-- A full task on an environment. -/
def run_env (env : TaskEnv) : TaskRunOutcome :=
  run_task env.mbstate.release_gid (run_main env)

/-- The result list of a computation, `[]` on error (used to state
decidable facts about concrete runs). -/
def okResults (e : Except String (List CheckResult)) : List CheckResult :=
  match e with
  | .ok rs => rs
  | .error _ => []

/-- Modelled from the spec: the `ia modified` precondition as the
specification words it — true iff `ia_state.last_modified <
max_last_modified` OR no original file other than `__ia_thumb.jpg` and
`mbid-<MBID>_files.xml` has `mtime > max_last_modified`.  This definition
follows the spec, to be compared against `run_main`; the source's
precondition (`audit_task.py` lines 114-127) compares the timestamps only. -/
def iaModifiedSpecCheck (env : TaskEnv) : Bool :=
  let lastMod : Int :=
    match jSub env.ia_meta "item_last_modified" with
    | .ok (.i n) => n
    | _ => 0
  let files : List JVal :=
    match jGetD env.ia_meta "files" (.arr []) with
    | .ok (.arr xs) => xs
    | _ => []
  let mbid := env.mbstate.release_gid
  decide (lastMod < env.mbstate.max_last_modified) ||
    !(files.any (fun f =>
      match f with
      | .obj kvs =>
          let nm := match List.lookup "name" kvs with
            | some (.s t) => t
            | _ => ""
          let src := (List.lookup "source" kvs).getD (.s "original")
          let mt : Int := match List.lookup "mtime" kvs with
            | some (.i n) => n
            | _ => 0
          !pyEq src (.s "derivative") && !(nm == "__ia_thumb.jpg") &&
            !(nm == ("mbid-" ++ mbid ++ "_files.xml")) &&
            decide (env.mbstate.max_last_modified < mt)
      | _ => false))

/-- A minimal catalog record shared by the concrete test inputs. -/
def mbEmpty : MBState :=
  ⟨"relgid", "Title", [], [], .null, none, [], [], 100⟩

/-- Concrete input for the `ia modified` claim: the item was modified
after `max_last_modified` but has no files at all. -/
def c4SampleEnv : TaskEnv :=
  ⟨mbEmpty, .obj [("item_last_modified", .i 200)], false, none⟩

/-- Concrete input whose metadata passes the preconditions but lacks the
`metadata` key. -/
def c1SampleEnv : TaskEnv :=
  ⟨mbEmpty, .obj [("item_last_modified", .i 0)], false, none⟩

/-- Catalog record with two artists, for the creators-order claim. -/
def mb5 : MBState :=
  ⟨"relgid", "Title", [⟨"A", "ag"⟩, ⟨"B", "bg"⟩], [], .null, none, [], [], 100⟩

/-- Remote item metadata whose creators list the artist names in reverse
catalog order. -/
def meta5 : JVal :=
  .obj [("creator", .arr [.s "B", .s "A"])]

def ia5 : JVal :=
  .obj [("metadata", meta5)]

/-- Catalog record with a barcode and an ASIN, for the external-identifier
claim. -/
def mb6 : MBState :=
  ⟨"relgid", "Title", [⟨"A", "ag"⟩], [], .null, some "786936718218", ["B00005NTQ7"], [], 100⟩

/-- The same catalog record without a barcode. -/
def mb6nb : MBState :=
  ⟨"relgid", "Title", [⟨"A", "ag"⟩], [], .null, none, ["B00005NTQ7"], [], 100⟩

/-- Remote item metadata whose file list holds one original `index.json`. -/
def c7SampleMeta : JVal :=
  .obj [("files", .arr [.obj [("name", .s "index.json"), ("source", .s "original")]])]

/-- Catalog record with a single cover image (id 1), for the index claim. -/
def mb8 : MBState :=
  ⟨"relgid", "Title", [], [], .null, none, [], [⟨1, 42, true, "", [], "jpg"⟩], 100⟩

/-- An index entry for image id 1 carrying every schema key. -/
def img8 : JVal :=
  .obj [("approved", .b true), ("back", .b false), ("comment", .s ""),
        ("edit", .i 42), ("front", .b false), ("id", .i 1),
        ("image", .s "http://coverartarchive.org/release/relgid/1.jpg"),
        ("thumbnails", .obj [("250", .s "a"), ("500", .s "b"), ("1200", .s "c"),
                             ("small", .s "d"), ("large", .s "e")]),
        ("types", .arr [])]

/-- A parsed index document whose images list holds exactly one entry for
image id 1. -/
def idx8 : JVal :=
  .obj [("release", .s "https://musicbrainz.org/release/relgid"),
        ("images", .arr [img8])]

/-- Sample file list for the `IAFiles` classification theorem: duplicate
originals, a derivative sharing the name, and two historical revisions
(one of which is also marked `derivative`). -/
def c10SampleFiles : List (List (String × JVal)) :=
  [[("name", .s "a.jpg")],
   [("name", .s "a.jpg"), ("mtime", .i 7)],
   [("name", .s "a.jpg"), ("source", .s "derivative")],
   [("name", .s "history/files/a.jpg~1~"), ("source", .s "derivative")],
   [("name", .s "history/files/a.jpg~2~")]]

/-!
## Theorems
-/

theorem bind_ok_iff {α β : Type} (x : Except String α) (f : α → Except String β) (b : β) :
    (x >>= f = Except.ok b) ↔ ∃ a, x = .ok a ∧ f a = .ok b := by
  cases x <;> simp [Bind.bind, Except.bind]

theorem pure_ok_iff {α : Type} (a b : α) :
    ((pure a : Except String α) = Except.ok b) ↔ a = b := by
  simp [pure, Except.pure]

theorem ok_bind {α β : Type} (a : α) (f : α → Except String β) :
    (Except.ok a >>= f) = f a := rfl

theorem strStarts_append_of (q p t : String) (h : strStarts p q = true) :
    strStarts (p ++ t) q = true := by
  unfold strStarts at *
  rw [List.isPrefixOf_iff_prefix] at *
  have hd : (p ++ t).data = p.data ++ t.data := rfl
  rw [hd]
  exact h.trans (List.prefix_append _ _)

theorem strStarts_append_self (p t : String) : strStarts (p ++ t) p = true := by
  unfold strStarts
  rw [List.isPrefixOf_iff_prefix]
  have hd : (p ++ t).data = p.data ++ t.data := rfl
  rw [hd]
  exact List.prefix_append _ _

theorem lookup_dictSet {α : Type} (m : List (String × α)) (k : String) (v : α) (k' : String) :
    List.lookup k' (dictSet m k v) = if k' = k then some v else List.lookup k' m := by
  induction m with
  | nil =>
      by_cases h : k' = k
      · subst h; simp [dictSet, List.lookup]
      · simp [dictSet, List.lookup, h, beq_eq_false_iff_ne.mpr h]
  | cons kv rest ih =>
      obtain ⟨k1, v1⟩ := kv
      by_cases h1 : k1 = k
      · subst h1
        by_cases h2 : k' = k1
        · subst h2; simp [dictSet, List.lookup]
        · simp [dictSet, List.lookup, h2, beq_eq_false_iff_ne.mpr h2]
      · by_cases h2 : k' = k1
        · subst h2
          simp [dictSet, List.lookup, h1]
        · simp [dictSet, List.lookup, h1, h2, beq_eq_false_iff_ne.mpr h2, ih]

theorem lookup_dictAppend {α : Type} (m : List (String × List α)) (k : String) (v : α)
    (k' : String) :
    List.lookup k' (dictAppend m k v) =
      if k' = k then some ((List.lookup k m).getD [] ++ [v]) else List.lookup k' m := by
  induction m with
  | nil =>
      by_cases h : k' = k
      · subst h; simp [dictAppend, List.lookup]
      · simp [dictAppend, List.lookup, h, beq_eq_false_iff_ne.mpr h]
  | cons kv rest ih =>
      obtain ⟨k1, vs⟩ := kv
      by_cases h1 : k1 = k
      · subst h1
        by_cases h2 : k' = k1
        · subst h2; simp [dictAppend, List.lookup]
        · simp [dictAppend, List.lookup, h2, beq_eq_false_iff_ne.mpr h2]
      · by_cases h2 : k' = k1
        · subst h2
          simp [dictAppend, List.lookup, h1, beq_eq_false_iff_ne.mpr (Ne.symm h1)]
        · simp [dictAppend, List.lookup, h1, h2, beq_eq_false_iff_ne.mpr h2,
            beq_eq_false_iff_ne.mpr (Ne.symm h1), ih]

theorem place_original (st : IAFiles) (g : IAFile) :
    (IAFiles.place st g).original_files =
      if g.is_historical = false ∧ g.is_derived = false then
        dictSet st.original_files g.name g
      else
        st.original_files := by
  unfold IAFiles.place
  cases hh : g.is_historical <;> cases hd : g.is_derived <;> simp [hh, hd]

theorem place_derived (st : IAFiles) (g : IAFile) :
    (IAFiles.place st g).derived_files =
      if g.is_historical = false ∧ g.is_derived = true then
        dictSet st.derived_files g.name g
      else
        st.derived_files := by
  unfold IAFiles.place
  cases hh : g.is_historical <;> cases hd : g.is_derived <;> simp [hh, hd]

theorem place_history (st : IAFiles) (g : IAFile) :
    (IAFiles.place st g).history_files =
      if g.is_historical = true then
        dictAppend st.history_files g.name g
      else
        st.history_files := by
  unfold IAFiles.place
  cases hh : g.is_historical <;> cases hd : g.is_derived <;> simp [hh, hd]

theorem foldl_place_original (gs : List IAFile) (st : IAFiles) (n : String) :
    List.lookup n (gs.foldl IAFiles.place st).original_files =
      (lastWithName gs (fun g => !g.is_historical && !g.is_derived) n).elim
        (List.lookup n st.original_files) some := by
  induction gs using List.reverseRecOn generalizing st with
  | nil => simp [lastWithName]
  | append_singleton gs g ih =>
      rw [List.foldl_append]
      simp only [List.foldl_cons, List.foldl_nil]
      unfold lastWithName at *
      rw [List.filter_append]
      rw [place_original]
      by_cases hc : g.is_historical = false ∧ g.is_derived = false
      · rw [if_pos hc]
        rw [lookup_dictSet]
        by_cases hn : n = g.name
        · have : (fun g => !g.is_historical && !g.is_derived) g && g.name == n := by
            simp [hc.1, hc.2, hn]
          simp only [List.filter_cons, List.filter_nil, this, if_pos rfl, if_true]
          simp [List.getLast?_concat, hn]
        · have : ((fun g => !g.is_historical && !g.is_derived) g && g.name == n) = false := by
            simp [beq_eq_false_iff_ne.mpr (fun h => hn h.symm)]
          simp only [List.filter_cons, List.filter_nil, this, Bool.false_eq_true,
            if_false, List.append_nil]
          rw [if_neg hn]
          exact ih st
      · rw [if_neg hc]
        have : ((fun g => !g.is_historical && !g.is_derived) g && g.name == n) = false := by
          cases hh : g.is_historical with
          | true => simp [hh]
          | false =>
              cases hd : g.is_derived with
              | true => simp [hh, hd]
              | false => exact absurd ⟨hh, hd⟩ hc
        simp only [List.filter_cons, List.filter_nil, this, Bool.false_eq_true,
          if_false, List.append_nil]
        exact ih st

theorem foldl_place_derived (gs : List IAFile) (st : IAFiles) (n : String) :
    List.lookup n (gs.foldl IAFiles.place st).derived_files =
      (lastWithName gs (fun g => !g.is_historical && g.is_derived) n).elim
        (List.lookup n st.derived_files) some := by
  induction gs using List.reverseRecOn generalizing st with
  | nil => simp [lastWithName]
  | append_singleton gs g ih =>
      rw [List.foldl_append]
      simp only [List.foldl_cons, List.foldl_nil]
      unfold lastWithName at *
      rw [List.filter_append]
      rw [place_derived]
      by_cases hc : g.is_historical = false ∧ g.is_derived = true
      · rw [if_pos hc]
        rw [lookup_dictSet]
        by_cases hn : n = g.name
        · have : (fun g => !g.is_historical && g.is_derived) g && g.name == n := by
            simp [hc.1, hc.2, hn]
          simp only [List.filter_cons, List.filter_nil, this, if_pos rfl, if_true]
          simp [List.getLast?_concat, hn]
        · have : ((fun g => !g.is_historical && g.is_derived) g && g.name == n) = false := by
            simp [beq_eq_false_iff_ne.mpr (fun h => hn h.symm)]
          simp only [List.filter_cons, List.filter_nil, this, Bool.false_eq_true,
            if_false, List.append_nil]
          rw [if_neg hn]
          exact ih st
      · rw [if_neg hc]
        have : ((fun g => !g.is_historical && g.is_derived) g && g.name == n) = false := by
          cases hh : g.is_historical with
          | true => simp [hh]
          | false =>
              cases hd : g.is_derived with
              | true => exact absurd ⟨hh, hd⟩ hc
              | false => simp [hh, hd]
        simp only [List.filter_cons, List.filter_nil, this, Bool.false_eq_true,
          if_false, List.append_nil]
        exact ih st

theorem foldl_place_history (gs : List IAFile) (st : IAFiles) (n : String) :
    (List.lookup n (gs.foldl IAFiles.place st).history_files).getD [] =
      (List.lookup n st.history_files).getD [] ++ histWithName gs n := by
  induction gs using List.reverseRecOn generalizing st with
  | nil => simp [histWithName]
  | append_singleton gs g ih =>
      rw [List.foldl_append]
      simp only [List.foldl_cons, List.foldl_nil]
      unfold histWithName at *
      rw [List.filter_append]
      rw [place_history]
      by_cases hh : g.is_historical = true
      · rw [if_pos hh]
        rw [lookup_dictAppend]
        by_cases hn : n = g.name
        · subst hn
          have hcond : g.is_historical && g.name == g.name := by simp [hh]
          simp only [List.filter_cons, List.filter_nil, hcond, if_true, if_pos rfl,
            Option.getD_some]
          rw [ih st]
          simp [List.append_assoc]
        · have hcond : (g.is_historical && g.name == n) = false := by
            simp [beq_eq_false_iff_ne.mpr (fun h => hn h.symm)]
          simp only [List.filter_cons, List.filter_nil, hcond, Bool.false_eq_true,
            if_false, List.append_nil]
          rw [if_neg hn]
          exact ih st
      · rw [if_neg hh]
        have hcond : (g.is_historical && g.name == n) = false := by
          simp [Bool.eq_false_iff.mpr hh]
        simp only [List.filter_cons, List.filter_nil, hcond, Bool.false_eq_true,
          if_false, List.append_nil]
        exact ih st

theorem build_eq_foldl (fl : List (List (String × JVal))) (ia : IAFiles)
    (h : IAFiles.build fl = .ok ia) :
    ia = (parsedFiles fl).foldl IAFiles.place ⟨[], [], []⟩ := by
  suffices H : ∀ (fl : List (List (String × JVal))) (st ia : IAFiles),
      fl.foldlM (fun st f => do
        let iaf ← IAFile.ofJson f
        pure (IAFiles.place st iaf)) st = .ok ia →
      ia = (parsedFiles fl).foldl IAFiles.place st by
    exact H fl ⟨[], [], []⟩ ia h
  intro fl
  induction fl with
  | nil =>
      intro st ia h
      simp [List.foldlM, parsedFiles, pure, Except.pure] at h
      simp [parsedFiles, h]
  | cons f rest ih =>
      intro st ia h
      simp only [List.foldlM_cons] at h
      rw [bind_ok_iff] at h
      obtain ⟨st', hst', hrest⟩ := h
      rw [bind_ok_iff] at hst'
      obtain ⟨g, hg, hpure⟩ := hst'
      rw [pure_ok_iff] at hpure
      subst hpure
      have : parsedFiles (f :: rest) = g :: parsedFiles rest := by
        simp [parsedFiles, hg, Except.toOption]
      rw [this, List.foldl_cons]
      exact ih (IAFiles.place st g) ia hrest

/-- C10: constructing `IAFiles` from a file list places every entry in
exactly one of its three indexes, the historical test (original name
starts with `history/files/`) taking precedence over the derivative test
(`source == 'derivative'`), which takes precedence over original:
the original index maps a logical name to the last non-historical,
non-derivative entry with that name, the derivative index to the last
non-historical derivative entry, and the history index accumulates the
historical entries sharing a logical name in list order. -/
theorem iafiles_build_partition (fl : List (List (String × JVal))) (ia : IAFiles)
    (h : IAFiles.build fl = .ok ia) :
    (∀ n, List.lookup n ia.original_files =
        lastWithName (parsedFiles fl) (fun g => !g.is_historical && !g.is_derived) n) ∧
    (∀ n, List.lookup n ia.derived_files =
        lastWithName (parsedFiles fl) (fun g => !g.is_historical && g.is_derived) n) ∧
    (∀ n, (List.lookup n ia.history_files).getD [] = histWithName (parsedFiles fl) n) := by
  have he := build_eq_foldl fl ia h
  subst he
  refine ⟨fun n => ?_, fun n => ?_, fun n => ?_⟩
  · rw [foldl_place_original]
    cases lastWithName (parsedFiles fl) (fun g => !g.is_historical && !g.is_derived) n <;> rfl
  · rw [foldl_place_derived]
    cases lastWithName (parsedFiles fl) (fun g => !g.is_historical && g.is_derived) n <;> rfl
  · rw [foldl_place_history]
    rfl

/-- Witness: the partition theorem applied to the sample file list. -/
theorem iafiles_build_partition_witness :
    ∃ ia, IAFiles.build c10SampleFiles = .ok ia ∧
      List.lookup "a.jpg" ia.original_files =
        lastWithName (parsedFiles c10SampleFiles)
          (fun g => !g.is_historical && !g.is_derived) "a.jpg" ∧
      (List.lookup "a.jpg" ia.history_files).getD [] =
        histWithName (parsedFiles c10SampleFiles) "a.jpg" := by
  refine ⟨_, rfl, ?_, ?_⟩
  · exact (iafiles_build_partition c10SampleFiles _ rfl).1 "a.jpg"
  · exact (iafiles_build_partition c10SampleFiles _ rfl).2.2 "a.jpg"

theorem countInternal_append (xs ys : List CheckResult) :
    countInternal (xs ++ ys) = countInternal xs + countInternal ys := by
  simp [countInternal, List.filter_append]

theorem putLoop_flags (rs : List CheckResult) :
    ∀ c j sk fl c' j' sk' fl',
      putLoop c rs j sk fl = .ok (c', j', sk', fl') →
      sk' = (sk || rs.any (fun r => r.state == .itemSkipped)) ∧
      fl' = (fl || rs.any (fun r => r.state == .failed)) := by
  induction rs with
  | nil =>
      intro c j sk fl c' j' sk' fl' h
      unfold putLoop at h
      injection h with h
      injection h with h1 h
      injection h with h2 h
      injection h with h3 h4
      subst h3; subst h4
      simp
  | cons r rest ih =>
      intro c j sk fl c' j' sk' fl' h
      unfold putLoop at h
      by_cases hint : isInternalRes r = true
      · rw [if_pos hint] at h
        by_cases hc : c + 1 > 10
        · rw [if_pos hc] at h
          cases h
        · rw [if_neg hc] at h
          obtain ⟨h1, h2⟩ := ih _ _ _ _ _ _ _ _ h
          constructor
          · rw [h1]; simp [Bool.or_assoc]
          · rw [h2]; simp [Bool.or_assoc]
      · rw [if_neg hint] at h
        obtain ⟨h1, h2⟩ := ih _ _ _ _ _ _ _ _ h
        constructor
        · rw [h1]; simp [Bool.or_assoc]
        · rw [h2]; simp [Bool.or_assoc]

theorem putLoop_count (rs : List CheckResult) :
    ∀ c j sk fl, c ≤ 10 →
      (c + countInternal rs ≤ 10 →
        ∃ j' sk' fl', putLoop c rs j sk fl = .ok (c + countInternal rs, j', sk', fl')) ∧
      (10 < c + countInternal rs → putLoop c rs j sk fl = .error "RuntimeError") := by
  induction rs with
  | nil =>
      intro c j sk fl hc
      constructor
      · intro _
        exact ⟨j, sk, fl, by simp [putLoop, countInternal]⟩
      · intro hgt
        simp [countInternal] at hgt
        omega
  | cons r rest ih =>
      intro c j sk fl hc
      by_cases hint : isInternalRes r = true
      · have hcount : countInternal (r :: rest) = 1 + countInternal rest := by
          simp only [countInternal, List.filter_cons, hint, if_true]
          simp [Nat.add_comm]
        rw [hcount]
        by_cases hover : c + 1 > 10
        · constructor
          · intro hle; exfalso; omega
          · intro _
            unfold putLoop
            rw [if_pos hint, if_pos hover]
        · have hc' : c + 1 ≤ 10 := by omega
          obtain ⟨ha, hb⟩ := ih (c + 1) (j ++ [journalLine r])
            (sk || r.state == .itemSkipped) (fl || r.state == .failed) hc'
          constructor
          · intro hle
            obtain ⟨j', sk', fl', hres⟩ := ha (by omega)
            refine ⟨j', sk', fl', ?_⟩
            unfold putLoop
            rw [if_pos hint, if_neg hover]
            have harith : c + 1 + countInternal rest = c + (1 + countInternal rest) := by omega
            rw [harith] at hres
            exact hres
          · intro hgt
            unfold putLoop
            rw [if_pos hint, if_neg hover]
            exact hb (by omega)
      · have hcount : countInternal (r :: rest) = countInternal rest := by
          simp only [countInternal, List.filter_cons]
          simp [hint]
        rw [hcount]
        obtain ⟨ha, hb⟩ := ih c (j ++ [journalLine r])
          (sk || r.state == .itemSkipped) (fl || r.state == .failed) hc
        constructor
        · intro hle
          obtain ⟨j', sk', fl', hres⟩ := ha (by omega)
          refine ⟨j', sk', fl', ?_⟩
          unfold putLoop
          rw [if_neg hint]
          exact hres
        · intro hgt
          unfold putLoop
          rw [if_neg hint]
          exact hb (by omega)

theorem put_spec (c : Nat) (rs : List CheckResult) (hc : c ≤ 10) :
    (c + countInternal rs ≤ 10 →
      ∃ out, ResultAggregator.put c rs = .ok out ∧ out.counter = c + countInternal rs) ∧
    (10 < c + countInternal rs → ResultAggregator.put c rs = .error "RuntimeError") := by
  obtain ⟨ha, hb⟩ := putLoop_count rs c [] false false hc
  constructor
  · intro hle
    obtain ⟨j', sk', fl', hres⟩ := ha hle
    refine ⟨⟨c + countInternal rs, j',
      if sk' then [.task_skipped] else if fl' then [.task_failed] else [.task_success]⟩, ?_, rfl⟩
    unfold ResultAggregator.put
    rw [hres]
  · intro hgt
    unfold ResultAggregator.put
    rw [hb hgt]

theorem putMany_spec (batches : List (List CheckResult)) :
    ∀ c, c ≤ 10 →
      (c + countInternal batches.join ≤ 10 →
        ResultAggregator.putMany c batches = .ok (c + countInternal batches.join)) ∧
      (10 < c + countInternal batches.join →
        ResultAggregator.putMany c batches = .error "RuntimeError") := by
  induction batches with
  | nil =>
      intro c hc
      constructor
      · intro _
        simp [ResultAggregator.putMany, countInternal]
      · intro hgt
        simp [countInternal] at hgt
        omega
  | cons b rest ih =>
      intro c hc
      have hjoin : countInternal (List.join (b :: rest)) =
          countInternal b + countInternal (List.join rest) := by
        simp [List.join, countInternal_append]
      obtain ⟨ha, hb⟩ := put_spec c b hc
      constructor
      · intro hle
        rw [hjoin] at hle
        rw [hjoin]
        unfold ResultAggregator.putMany
        obtain ⟨out, hput, hcounter⟩ := ha (by omega)
        rw [hput]
        show ResultAggregator.putMany out.counter rest =
          Except.ok (c + (countInternal b + countInternal rest.join))
        rw [hcounter]
        obtain ⟨ha', _⟩ := ih (c + countInternal b) (by omega)
        rw [ha' (by omega)]
        congr 1
        omega
      · intro hgt
        rw [hjoin] at hgt
        unfold ResultAggregator.putMany
        by_cases hb10 : c + countInternal b ≤ 10
        · obtain ⟨out, hput, hcounter⟩ := ha hb10
          rw [hput]
          show ResultAggregator.putMany out.counter rest = Except.error "RuntimeError"
          rw [hcounter]
          obtain ⟨_, hb'⟩ := ih (c + countInternal b) (by omega)
          exact hb' (by omega)
        · rw [hb (by omega)]

/-- C3: across a run the aggregator aborts if and only if the cumulative
number of results whose first `::`-segment is `InternalError` exceeds 10:
a run whose batches carry at most 10 such results completes every `put`,
and one carrying more raises `RuntimeError` on the `put` that processes
the 11th such result. -/
theorem aggregator_internal_error_guard (batches : List (List CheckResult)) :
    ((∃ n, ResultAggregator.putMany 0 batches = .ok n) ↔
      countInternal batches.join ≤ 10) ∧
    (10 < countInternal batches.join →
      ResultAggregator.putMany 0 batches = .error "RuntimeError") := by
  obtain ⟨ha, hb⟩ := putMany_spec batches 0 (by omega)
  constructor
  · constructor
    · intro ⟨n, hn⟩
      by_contra hgt
      rw [hb (by omega)] at hn
      cases hn
    · intro hle
      exact ⟨countInternal batches.join, by simpa using ha (by omega)⟩
  · intro hgt
    exact hb (by omega)

/-- A `put` call that completes fires the precedence-chosen transition
(helper for the C9 theorem). -/
theorem put_signal_of_ok (c : Nat) (rs : List CheckResult) (out : PutOk)
    (h2 : ResultAggregator.put c rs = .ok out) :
    out.signals = (if rs.any (fun r => r.state == .itemSkipped) then [ProgressSignal.task_skipped]
      else if rs.any (fun r => r.state == .failed) then [ProgressSignal.task_failed]
      else [ProgressSignal.task_success]) := by
  unfold ResultAggregator.put at h2
  cases hpl : putLoop c rs [] false false with
  | error e => rw [hpl] at h2; cases h2
  | ok t =>
      obtain ⟨c', j', sk', fl'⟩ := t
      rw [hpl] at h2
      obtain ⟨hsk, hfl⟩ := putLoop_flags rs c [] false false c' j' sk' fl' hpl
      injection h2 with h2
      subst h2
      simp only [hsk, hfl, Bool.false_or]

/-- C9 (amended): a `put` on a non-empty batch either completes and fires
exactly one progress transition — `task_skipped` when the batch holds an
`ItemSkipped`, otherwise `task_failed` when it holds a `CheckFailed`,
otherwise `task_success` — or processes the 11th cumulative
`InternalError::*` result, in which case it raises `RuntimeError` mid-loop
and fires no transition at all. -/
theorem aggregator_put_transitions (c : Nat) (rs : List CheckResult)
    (hc : c ≤ 10) (hne : rs ≠ []) :
    (∀ out, ResultAggregator.put c rs = .ok out →
      out.signals =
        (if rs.any (fun r => r.state == .itemSkipped) then [ProgressSignal.task_skipped]
         else if rs.any (fun r => r.state == .failed) then [ProgressSignal.task_failed]
         else [ProgressSignal.task_success])) ∧
    (10 < c + countInternal rs → ResultAggregator.put c rs = .error "RuntimeError") := by
  refine ⟨fun out hout => put_signal_of_ok c rs out hout, ?_⟩
  intro hgt
  exact (put_spec c rs hc).2 hgt

/-- Witness for C9 (amended) at a concrete completing batch with one
failed check, and a concrete aborting batch at counter 10. -/
theorem aggregator_put_transitions_witness :
    (∃ out, ResultAggregator.put 0 [⟨.failed, "m", "Files::index.json exists"⟩] = .ok out ∧
      out.signals = [ProgressSignal.task_failed]) ∧
    ResultAggregator.put 10 [⟨.itemSkipped, "m", "InternalError::TypeError"⟩] =
      .error "RuntimeError" := by
  constructor
  · refine ⟨_, rfl, ?_⟩
    have h := (aggregator_put_transitions 0 [⟨.failed, "m", "Files::index.json exists"⟩]
      (by omega) (by simp)).1 _ rfl
    simpa using h
  · exact (aggregator_put_transitions 10 [⟨.itemSkipped, "m", "InternalError::TypeError"⟩]
      (by omega) (by simp)).2 (by decide)

/-- C9 counterexample: eleven tasks each pushing one `InternalError::*`
skip.  The first ten `put` calls complete, but the call that processes the
11th such result raises `RuntimeError` before flushing the journal or
firing any of `task_skipped`/`task_failed`/`task_success` — a non-empty
batch with zero progress transitions, falsifying "exactly one transition
per non-empty batch". -/
theorem aggregator_put_abort_counterexample :
    ResultAggregator.putMany 0
      (List.replicate 10 [⟨.itemSkipped, "m", "InternalError::TypeError"⟩]) = .ok 10 ∧
    ResultAggregator.put 10 [⟨.itemSkipped, "m", "InternalError::TypeError"⟩] =
      .error "RuntimeError" ∧
    ResultAggregator.putMany 0
      (List.replicate 11 [⟨.itemSkipped, "m", "InternalError::TypeError"⟩]) =
      .error "RuntimeError" :=
  ⟨rfl, rfl, rfl⟩

/-- C2: when the check sequence raises any uncaught exception (class name
`e`), the task emits exactly one result — an `ItemSkipped` with the
task's mbid and description `InternalError::<e>` — and the report stage
still executes: `failures.log` is written (no `CheckFailed` lines) and
the single-result batch is pushed to the aggregator. -/
theorem run_internal_error_single (env : TaskEnv) (e : String)
    (h : run_main env = .error e) :
    run_env env =
      ⟨[⟨.itemSkipped, env.mbstate.release_gid, "InternalError::" ++ e⟩], true, [],
       [⟨.itemSkipped, env.mbstate.release_gid, "InternalError::" ++ e⟩]⟩ := by
  unfold run_env run_task
  rw [h]
  rfl

/-- Witness for C2: a truthy non-dict metadata value raises
`AttributeError` at the `is_dark` lookup. -/
theorem run_internal_error_single_witness :
    run_env ⟨mbEmpty, .s "x", false, none⟩ =
      ⟨[⟨.itemSkipped, "relgid", "InternalError::AttributeError"⟩], true, [],
       [⟨.itemSkipped, "relgid", "InternalError::AttributeError"⟩]⟩ :=
  run_internal_error_single ⟨mbEmpty, .s "x", false, none⟩ "AttributeError" rfl

theorem strStarts_ne (d t p : String) (h1 : strStarts d p = true)
    (h2 : strStarts t p = false) : d ≠ t := by
  intro he
  rw [he, h2] at h1
  cases h1

theorem simpleCheck_desc (m c : String) (s : Bool) : (simpleCheck m c s).desc = c := by
  unfold simpleCheck
  split <;> rfl

theorem simpleCheck_state (m c : String) (s : Bool) :
    (simpleCheck m c s).state = if s then .passed else .failed := by
  unfold simpleCheck
  split <;> simp [*]

theorem getSingle_desc (mbid : String) (m : JVal) (k : String) (d : JVal)
    (a : JVal × CheckResult) (h : getSingle mbid m k d = .ok a) :
    a.2.desc = "Metadata::Precheck::" ++ k ++ " is singular" := by
  unfold getSingle at h
  rw [bind_ok_iff] at h
  obtain ⟨v, _, h⟩ := h
  cases v <;> simp_all [pure, Except.pure, isScalar] <;> simp [← h]

theorem getSingle_desc_starts (mbid : String) (m : JVal) (k : String) (d : JVal)
    (a : JVal × CheckResult) (h : getSingle mbid m k d = .ok a) :
    strStarts a.2.desc "Metadata::" = true := by
  rw [getSingle_desc mbid m k d a h]
  exact strStarts_append_of _ _ _ (strStarts_append_of _ _ _ (by decide))

theorem run_metadata_checks_starts (mb : MBState) (ia : JVal) (rs : List CheckResult)
    (h : run_metadata_checks mb ia = .ok rs) :
    ∀ r ∈ rs, strStarts r.desc "Metadata::" = true := by
  unfold run_metadata_checks at h
  simp only [bind_ok_iff, pure_ok_iff] at h
  obtain ⟨metadata, hm, collections, hc, noindex, hn, mediatype, hmt, title, ht,
    creators, hcr, u1, hu1, date, hd, language, hl, ext, hext, u2, hu2, hfinal⟩ := h
  subst hfinal
  intro r hr
  simp only [List.mem_append, List.mem_cons, List.not_mem_nil, or_false,
    List.mem_map] at hr
  rcases hr with ((rfl | rfl | rfl | rfl | rfl | rfl | rfl | rfl | rfl | rfl | rfl) |
    ⟨o, _, rfl⟩) | ⟨e', _, rfl⟩
  · rw [simpleCheck_desc]; decide
  · exact getSingle_desc_starts _ _ _ _ _ hn
  · rw [simpleCheck_desc]; decide
  · exact getSingle_desc_starts _ _ _ _ _ hmt
  · rw [simpleCheck_desc]; decide
  · exact getSingle_desc_starts _ _ _ _ _ ht
  · rw [simpleCheck_desc]; decide
  · rw [simpleCheck_desc]; decide
  · exact getSingle_desc_starts _ _ _ _ _ hd
  · rw [simpleCheck_desc]; decide
  · rw [simpleCheck_desc]; decide
  · rw [simpleCheck_desc]; decide
  · rw [simpleCheck_desc]; decide

theorem filesCoverChecks_starts (covers : List MBCover) (mbid : String) (files : List JVal)
    (rs : List CheckResult) (h : filesCoverChecks mbid files covers = .ok rs) :
    ∀ r ∈ rs, strStarts r.desc "Files::" = true := by
  induction covers generalizing rs with
  | nil =>
      unfold filesCoverChecks at h
      injection h with h
      subst h
      intro r hr
      cases hr
  | cons c rest ih =>
      unfold filesCoverChecks at h
      simp only [bind_ok_iff, pure_ok_iff] at h
      obtain ⟨orig, _, t250, _, t500, _, t1200, _, withId, _, more, hmore, hfinal⟩ := h
      subst hfinal
      intro r hr
      simp only [List.mem_cons] at hr
      rcases hr with rfl | rfl | rfl | rfl | rfl | hr
      · rw [simpleCheck_desc]; decide
      · rw [simpleCheck_desc]; decide
      · rw [simpleCheck_desc]; decide
      · rw [simpleCheck_desc]; decide
      · rw [simpleCheck_desc]; decide
      · exact ih more hmore r hr

theorem run_files_checks_starts (mb : MBState) (ia : JVal) (rs : List CheckResult)
    (h : run_files_checks mb ia = .ok rs) :
    ∀ r ∈ rs, strStarts r.desc "Files::" = true := by
  unfold run_files_checks at h
  simp only [bind_ok_iff, pure_ok_iff] at h
  obtain ⟨filesVal, _, files, _, g1, _, g2, _, coverResults, hcov, hfinal⟩ := h
  subst hfinal
  intro r hr
  simp only [List.mem_cons] at hr
  rcases hr with rfl | rfl | hr
  · rw [simpleCheck_desc]; decide
  · rw [simpleCheck_desc]; decide
  · exact filesCoverChecks_starts mb.covers mb.release_gid files coverResults hcov r hr

theorem schemaKeyChecks_starts (fields : List (String × Schema)) (mbid : String) (index : JVal)
    (path : String) (rs : List CheckResult) (h : schemaKeyChecks mbid index fields path = .ok rs) :
    ∀ r ∈ rs, strStarts r.desc "CAAIndex::" = true := by
  induction fields generalizing rs with
  | nil =>
      unfold schemaKeyChecks at h
      injection h with h
      subst h
      intro r hr
      cases hr
  | cons kv rest ih =>
      obtain ⟨k, sub⟩ := kv
      unfold schemaKeyChecks at h
      simp only [bind_ok_iff, pure_ok_iff] at h
      obtain ⟨mem, _, more, hmore, hfinal⟩ := h
      subst hfinal
      intro r hr
      simp only [List.mem_cons] at hr
      rcases hr with rfl | hr
      · rw [simpleCheck_desc]
        exact strStarts_append_of _ _ _
          (strStarts_append_of _ _ _ (strStarts_append_of _ _ _ (by decide)))
      · exact ih more hmore r hr

theorem schemaValueChecksWith_starts
    (verify : JVal → Schema → String → Except String (List CheckResult))
    (hv : ∀ v sub p rs, verify v sub p = .ok rs →
      ∀ r ∈ rs, strStarts r.desc "CAAIndex::" = true)
    (index : JVal) (fields : List (String × Schema)) (path : String)
    (rs : List CheckResult)
    (h : schemaValueChecksWith verify index fields path = .ok rs) :
    ∀ r ∈ rs, strStarts r.desc "CAAIndex::" = true := by
  induction fields generalizing rs with
  | nil =>
      unfold schemaValueChecksWith at h
      injection h with h
      subst h
      intro r hr
      cases hr
  | cons kv rest ih =>
      obtain ⟨k, sub⟩ := kv
      unfold schemaValueChecksWith at h
      simp only [bind_ok_iff, pure_ok_iff] at h
      obtain ⟨mem, _, here, hhere, more, hmore, hfinal⟩ := h
      subst hfinal
      intro r hr
      rw [List.mem_append] at hr
      rcases hr with hr | hr
      · split at hhere
        · simp only [bind_ok_iff] at hhere
          obtain ⟨v, _, hvv⟩ := hhere
          exact hv v sub (path ++ "." ++ k) here hvv r hr
        · rw [pure_ok_iff] at hhere
          subst hhere
          cases hr
      · exact ih more hmore r hr

theorem schemaElemChecksWith_starts
    (verify : JVal → Schema → String → Except String (List CheckResult))
    (hv : ∀ v sub p rs, verify v sub p = .ok rs →
      ∀ r ∈ rs, strStarts r.desc "CAAIndex::" = true)
    (elems : List JVal) (sub : Schema) (path : String) (rs : List CheckResult)
    (h : schemaElemChecksWith verify elems sub path = .ok rs) :
    ∀ r ∈ rs, strStarts r.desc "CAAIndex::" = true := by
  induction elems generalizing rs with
  | nil =>
      unfold schemaElemChecksWith at h
      injection h with h
      subst h
      intro r hr
      cases hr
  | cons e rest ih =>
      unfold schemaElemChecksWith at h
      simp only [bind_ok_iff, pure_ok_iff] at h
      obtain ⟨here, hhere, more, hmore, hfinal⟩ := h
      subst hfinal
      intro r hr
      rw [List.mem_append] at hr
      rcases hr with hr | hr
      · exact hv e sub path here hhere r hr
      · exact ih more hmore r hr

theorem verifySchemaFuel_starts (mbid : String) (n : Nat) :
    ∀ (index : JVal) (schema : Schema) (path : String) (rs : List CheckResult),
    verifySchemaFuel mbid n index schema path = .ok rs →
    ∀ r ∈ rs, strStarts r.desc "CAAIndex::" = true := by
  induction n with
  | zero =>
      intro index schema path rs h
      exact absurd h (by unfold verifySchemaFuel; simp)
  | succ n ih =>
      intro index schema path rs h
      match schema with
      | .tstr =>
          unfold verifySchemaFuel at h
          injection h with h
          subst h
          intro r hr
          cases hr
      | .tint =>
          unfold verifySchemaFuel at h
          injection h with h
          subst h
          intro r hr
          cases hr
      | .tbool =>
          unfold verifySchemaFuel at h
          injection h with h
          subst h
          intro r hr
          cases hr
      | .sobj fields =>
          unfold verifySchemaFuel at h
          simp only [bind_ok_iff, pure_ok_iff] at h
          obtain ⟨keyResults, hkey, valueResults, hval, hfinal⟩ := h
          subst hfinal
          intro r hr
          rw [List.mem_append] at hr
          rcases hr with hr | hr
          · split at hkey
            · simp only [bind_ok_iff, pure_ok_iff] at hkey
              obtain ⟨ks, _, hk⟩ := hkey
              subst hk
              simp only [List.mem_singleton] at hr
              subst hr
              rw [simpleCheck_desc]
              exact strStarts_append_of _ _ _ (strStarts_append_of _ _ _ (by decide))
            · simp only [bind_ok_iff, pure_ok_iff] at hkey
              obtain ⟨presence, hpres, ks, _, hk⟩ := hkey
              subst hk
              rw [List.mem_append] at hr
              rcases hr with hr | hr
              · exact schemaKeyChecks_starts fields mbid index path presence hpres r hr
              · rw [List.mem_map] at hr
                obtain ⟨k, _, rfl⟩ := hr
                rw [simpleCheck_desc]
                exact strStarts_append_of _ _ _
                  (strStarts_append_of _ _ _ (strStarts_append_of _ _ _ (by decide)))
          · exact schemaValueChecksWith_starts _ (fun v s p rs hv => ih v s p rs hv)
              index fields path valueResults hval r hr
      | .sarr sub =>
          unfold verifySchemaFuel at h
          simp only [bind_ok_iff] at h
          obtain ⟨elems, _, h⟩ := h
          exact schemaElemChecksWith_starts _ (fun v s p rs hv => ih v s p rs hv)
            elems sub (path ++ "[]") rs h

theorem verify_schema_rec_starts (mbid : String) (index : JVal) (schema : Schema)
    (path : String) (rs : List CheckResult)
    (h : verify_schema_rec mbid index schema path = .ok rs) :
    ∀ r ∈ rs, strStarts r.desc "CAAIndex::" = true :=
  verifySchemaFuel_starts mbid PY_RECURSION_LIMIT index schema path rs h

theorem coverLoopChecks_starts (coverDict : List (Int × MBCover)) (mbid : String)
    (imgs : List JVal) (rs : List CheckResult)
    (h : coverLoopChecks mbid imgs coverDict = .ok rs) :
    ∀ r ∈ rs, strStarts r.desc "CAAIndex::" = true := by
  induction coverDict generalizing rs with
  | nil =>
      unfold coverLoopChecks at h
      injection h with h
      subst h
      intro r hr
      cases hr
  | cons kv rest ih =>
      obtain ⟨cover_id, cov⟩ := kv
      unfold coverLoopChecks at h
      simp only [bind_ok_iff, pure_ok_iff] at h
      obtain ⟨matching, _, more, hmore, hfinal⟩ := h
      subst hfinal
      intro r hr
      simp only [List.mem_cons] at hr
      rcases hr with rfl | rfl | hr
      · rw [simpleCheck_desc]; decide
      · rw [simpleCheck_desc]; decide
      · exact ih more hmore r hr

theorem imagePerChecks_starts (mbid : String) (image : JVal) (coverDict : List (Int × MBCover))
    (rs : List CheckResult) (h : imagePerChecks mbid image coverDict = .ok rs) :
    ∀ r ∈ rs, strStarts r.desc "CAAIndex::" = true := by
  unfold imagePerChecks at h
  simp only [bind_ok_iff, pure_ok_iff] at h
  obtain ⟨idVal, _, h⟩ := h
  split at h
  · rw [pure_ok_iff] at h
    subst h
    intro r hr
    simp only [List.mem_singleton] at hr
    subst hr
    rw [simpleCheck_desc]; decide
  · simp only [bind_ok_iff, pure_ok_iff] at h
    obtain ⟨caa, _, editVal, _, r_approval, happroval, commentVal, _, typesVal, _,
      typesSet, _, u1, _, u2, _, frontback, hfb, urlVal, _, thumbVal, _, hfinal⟩ := h
    subst hfinal
    have h_app : strStarts r_approval.desc "CAAIndex::" = true := by
      split at happroval
      · rw [pure_ok_iff] at happroval
        subst happroval
        show strStarts "CAAIndex::Image::edit approval status" "CAAIndex::" = true
        decide
      · simp only [bind_ok_iff, pure_ok_iff] at happroval
        obtain ⟨approvedVal, _, happroval⟩ := happroval
        subst happroval
        rw [simpleCheck_desc]; decide
    have h_fb : ∀ r ∈ frontback, strStarts r.desc "CAAIndex::" = true := by
      split at hfb
      · rw [pure_ok_iff] at hfb
        subst hfb
        intro r hr
        simp only [List.mem_cons, List.not_mem_nil, or_false] at hr
        rcases hr with rfl | rfl
        · show strStarts "CAAIndex::Image::front" "CAAIndex::" = true
          decide
        · show strStarts "CAAIndex::Image::back" "CAAIndex::" = true
          decide
      · simp only [bind_ok_iff, pure_ok_iff] at hfb
        obtain ⟨frontVal, _, backVal, _, hfb⟩ := hfb
        subst hfb
        intro r hr
        simp only [List.mem_cons, List.not_mem_nil, or_false] at hr
        rcases hr with rfl | rfl <;> (rw [simpleCheck_desc]; decide)
    intro r hr
    simp only [List.mem_append, List.mem_cons, List.not_mem_nil, or_false] at hr
    rcases hr with ((rfl | rfl | rfl | rfl | rfl) | hr) | (rfl | rfl)
    · rw [simpleCheck_desc]; decide
    · rw [simpleCheck_desc]; decide
    · exact h_app
    · rw [simpleCheck_desc]; decide
    · rw [simpleCheck_desc]; decide
    · exact h_fb r hr
    · rw [simpleCheck_desc]; decide
    · rw [simpleCheck_desc]; decide

theorem imageLoopChecks_starts (imgs : List JVal) (mbid : String)
    (coverDict : List (Int × MBCover)) (rs : List CheckResult)
    (h : imageLoopChecks mbid imgs coverDict = .ok rs) :
    ∀ r ∈ rs, strStarts r.desc "CAAIndex::" = true := by
  induction imgs generalizing rs with
  | nil =>
      unfold imageLoopChecks at h
      injection h with h
      subst h
      intro r hr
      cases hr
  | cons image rest ih =>
      unfold imageLoopChecks at h
      simp only [bind_ok_iff, pure_ok_iff] at h
      obtain ⟨here, hhere, more, hmore, hfinal⟩ := h
      subst hfinal
      intro r hr
      rw [List.mem_append] at hr
      rcases hr with hr | hr
      · exact imagePerChecks_starts mbid image coverDict here hhere r hr
      · exact ih more hmore r hr

theorem run_index_checks_starts (mb : MBState) (caa_index : Option (Option JVal))
    (rs : List CheckResult) (h : run_index_checks mb caa_index = .ok rs) :
    ∀ r ∈ rs, strStarts r.desc "CAAIndex::" = true := by
  unfold run_index_checks at h
  cases caa_index with
  | none =>
      simp only [pure_ok_iff] at h
      subst h
      intro r hr
      simp only [List.mem_singleton] at hr
      subst hr
      rw [simpleCheck_desc]; decide
  | some parsed =>
      cases parsed with
      | none =>
          simp only [pure_ok_iff] at h
          subst h
          intro r hr
          simp only [List.mem_cons, List.not_mem_nil, or_false] at hr
          rcases hr with rfl | rfl
          · rw [simpleCheck_desc]; decide
          · show strStarts "CAAIndex::is well-formed" "CAAIndex::" = true
            decide
      | some index =>
          simp only [bind_ok_iff, pure_ok_iff] at h
          obtain ⟨schemaResults, hschema, h⟩ := h
          split at h
          · rw [pure_ok_iff] at h
            subst h
            intro r hr
            simp only [List.mem_append, List.mem_cons, List.not_mem_nil, or_false] at hr
            rcases hr with (rfl | rfl) | hr
            · rw [simpleCheck_desc]; decide
            · show strStarts "CAAIndex::is well-formed" "CAAIndex::" = true
              decide
            · exact verify_schema_rec_starts mb.release_gid index INDEX_SCHEMA "root"
                schemaResults hschema r hr
          · simp only [bind_ok_iff, pure_ok_iff] at h
            obtain ⟨releaseVal, _, imagesVal, _, ia_images, _, missingUnique, hmu,
              perImage, hpi, index_order, _, hfinal⟩ := h
            subst hfinal
            intro r hr
            simp only [List.mem_append, List.mem_cons, List.not_mem_nil, or_false] at hr
            rcases hr with (((((rfl | rfl) | hr) | rfl) | hr) | hr) | rfl
            · rw [simpleCheck_desc]; decide
            · show strStarts "CAAIndex::is well-formed" "CAAIndex::" = true
              decide
            · exact verify_schema_rec_starts mb.release_gid index INDEX_SCHEMA "root"
                schemaResults hschema r hr
            · rw [simpleCheck_desc]; decide
            · exact coverLoopChecks_starts (coverDictOf mb.covers) mb.release_gid
                ia_images missingUnique hmu r hr
            · exact imageLoopChecks_starts ia_images mb.release_gid (coverDictOf mb.covers)
                perImage hpi r hr
            · rw [simpleCheck_desc]; decide

theorem run_main_starts (env : TaskEnv) (rs : List CheckResult) (h : run_main env = .ok rs) :
    ∀ r ∈ rs,
      strStarts r.desc "Item::" = true ∨ strStarts r.desc "Metadata::" = true ∨
      strStarts r.desc "Files::" = true ∨ strStarts r.desc "CAAIndex::" = true := by
  unfold run_main at h
  split at h
  · rw [pure_ok_iff] at h
    subst h
    intro r hr
    simp only [List.mem_singleton] at hr
    subst hr
    exact Or.inl (show strStarts "Item::exists" "Item::" = true by decide)
  · split at h
    · rw [pure_ok_iff] at h
      subst h
      intro r hr
      simp only [List.mem_cons, List.not_mem_nil, or_false] at hr
      rcases hr with rfl | rfl
      · exact Or.inl (show strStarts "Item::exists" "Item::" = true by decide)
      · exact Or.inl (show strStarts "Item::has pending tasks" "Item::" = true by decide)
    · simp only [bind_ok_iff, pure_ok_iff] at h
      obtain ⟨darkVal, _, h⟩ := h
      split at h
      · rw [pure_ok_iff] at h
        subst h
        intro r hr
        simp only [List.mem_cons, List.not_mem_nil, or_false] at hr
        rcases hr with rfl | rfl
        · exact Or.inl (show strStarts "Item::exists" "Item::" = true by decide)
        · exact Or.inl (show strStarts "Item::darkened" "Item::" = true by decide)
      · simp only [bind_ok_iff, pure_ok_iff] at h
        obtain ⟨lmVal, _, ia_last, _, h⟩ := h
        split at h
        · rw [pure_ok_iff] at h
          subst h
          intro r hr
          simp only [List.mem_cons, List.not_mem_nil, or_false] at hr
          rcases hr with rfl | rfl
          · exact Or.inl (show strStarts "Item::exists" "Item::" = true by decide)
          · exact Or.inl (show strStarts "Item::outdated mb state" "Item::" = true by decide)
        · simp only [bind_ok_iff, pure_ok_iff] at h
          obtain ⟨hasMeta, _, h⟩ := h
          split at h
          · rw [pure_ok_iff] at h
            subst h
            intro r hr
            simp only [List.mem_cons, List.not_mem_nil, or_false] at hr
            rcases hr with rfl | rfl
            · exact Or.inl (show strStarts "Item::exists" "Item::" = true by decide)
            · exact Or.inr (Or.inl
                (show strStarts "Metadata::missing metadata key" "Metadata::" = true by decide))
          · simp only [bind_ok_iff, pure_ok_iff] at h
            obtain ⟨ms, hms, fs, hfs, is', his, hfinal⟩ := h
            subst hfinal
            intro r hr
            simp only [List.mem_append, List.mem_singleton] at hr
            rcases hr with ((rfl | hr) | hr) | hr
            · exact Or.inl (show strStarts "Item::exists" "Item::" = true by decide)
            · exact Or.inr (Or.inl (run_metadata_checks_starts env.mbstate env.ia_meta ms hms r hr))
            · exact Or.inr (Or.inr (Or.inl (run_files_checks_starts env.mbstate env.ia_meta fs hfs r hr)))
            · exact Or.inr (Or.inr (Or.inr (run_index_checks_starts env.mbstate env.caa_index is' his r hr)))

/-- C1 (amended): the task never dispatches on an input state; every
`ItemSkipped` or `CheckFailed` result it emits has a description that
begins with one of `Item::`, `Metadata::`, `Files::`, `CAAIndex::` or
`InternalError::` — never an `EmptyItem`/`DeletedItem`/`MergedItem` base
category, and there are no separate deleted checks. -/
theorem run_results_category (env : TaskEnv) :
    ∀ r ∈ (run_env env).results, r.state = .failed ∨ r.state = .itemSkipped →
      strStarts r.desc "Item::" = true ∨ strStarts r.desc "Metadata::" = true ∨
      strStarts r.desc "Files::" = true ∨ strStarts r.desc "CAAIndex::" = true ∨
      strStarts r.desc "InternalError::" = true := by
  intro r hr _
  unfold run_env run_task at hr
  cases hmain : run_main env with
  | ok rs =>
      rw [hmain] at hr
      have hmem : r ∈ rs := hr
      rcases run_main_starts env rs hmain r hmem with h1 | h1 | h1 | h1
      · exact Or.inl h1
      · exact Or.inr (Or.inl h1)
      · exact Or.inr (Or.inr (Or.inl h1))
      · exact Or.inr (Or.inr (Or.inr (Or.inl h1)))
  | error e =>
      rw [hmain] at hr
      have hmem : r ∈ [(⟨.itemSkipped, env.mbstate.release_gid, "InternalError::" ++ e⟩ :
        CheckResult)] := hr
      simp only [List.mem_singleton] at hmem
      subst hmem
      exact Or.inr (Or.inr (Or.inr (Or.inr (strStarts_append_self "InternalError::" e))))

/-- Witness for C1 (amended) at the concrete input that fails the
`Metadata::missing metadata key` check. -/
theorem run_results_category_witness :
    strStarts (⟨CheckState.failed, "relgid", "Metadata::missing metadata key"⟩ :
        CheckResult).desc "Item::" = true ∨
      strStarts (⟨CheckState.failed, "relgid", "Metadata::missing metadata key"⟩ :
        CheckResult).desc "Metadata::" = true ∨
      strStarts (⟨CheckState.failed, "relgid", "Metadata::missing metadata key"⟩ :
        CheckResult).desc "Files::" = true ∨
      strStarts (⟨CheckState.failed, "relgid", "Metadata::missing metadata key"⟩ :
        CheckResult).desc "CAAIndex::" = true ∨
      strStarts (⟨CheckState.failed, "relgid", "Metadata::missing metadata key"⟩ :
        CheckResult).desc "InternalError::" = true :=
  run_results_category c1SampleEnv
    ⟨CheckState.failed, "relgid", "Metadata::missing metadata key"⟩ (by decide) (Or.inl rfl)

/-- C1 counterexample: at this input the task emits a `CheckFailed` whose
description `Metadata::missing metadata key` starts with none of the four
base categories the claim allows (the code has no state dispatch). -/
theorem run_results_category_counterexample :
    (run_env c1SampleEnv).results =
      [⟨.passed, "relgid", "Item::exists"⟩,
       ⟨.failed, "relgid", "Metadata::missing metadata key"⟩] ∧
    strStarts "Metadata::missing metadata key" "Item::" = false ∧
    strStarts "Metadata::missing metadata key" "EmptyItem::" = false ∧
    strStarts "Metadata::missing metadata key" "DeletedItem::" = false ∧
    strStarts "Metadata::missing metadata key" "MergedItem::" = false :=
  ⟨rfl, rfl, rfl, rfl, rfl⟩

/-- C4 (amended): in the precondition stage the source compares only the
timestamps — the check passes iff `item_last_modified <
max_last_modified`, with no file-mtime disjunct; when it fails the task
emits `ItemSkipped` `Item::outdated mb state` (not `ia modified`) as its
final result and runs no subsequent stage, and when it passes no
`Item::outdated mb state` result is ever emitted. -/
theorem outdated_mb_state_check (env : TaskEnv) (kvs : List (String × JVal)) (lm : Int)
    (hm : env.ia_meta = .obj kvs)
    (h1 : pyTruthy (.obj kvs) = true)
    (h2 : env.has_pending_tasks = false)
    (h3 : pyTruthy ((List.lookup "is_dark" kvs).getD (.b false)) = false)
    (h4 : List.lookup "item_last_modified" kvs = some (.i lm)) :
    (env.mbstate.max_last_modified ≤ lm →
      run_main env = .ok [⟨.passed, env.mbstate.release_gid, "Item::exists"⟩,
        ⟨.itemSkipped, env.mbstate.release_gid, "Item::outdated mb state"⟩]) ∧
    (lm < env.mbstate.max_last_modified →
      ∀ rs, run_main env = .ok rs → ∀ r ∈ rs, r.desc ≠ "Item::outdated mb state") := by
  constructor
  · intro hge
    unfold run_main
    rw [hm, h1, h2]
    simp only [Bool.not_true, Bool.false_eq_true, if_false, jGetD, jSub, h4, ok_bind]
    rw [h3]
    simp only [Bool.false_eq_true, if_false, ok_bind, asTimestamp]
    rw [if_pos (show lm ≥ env.mbstate.max_last_modified by omega)]
    rfl
  · intro hlt rs hok r hr
    unfold run_main at hok
    rw [hm, h1, h2] at hok
    simp only [Bool.not_true, Bool.false_eq_true, if_false, jGetD, jSub, h4, ok_bind] at hok
    rw [h3] at hok
    simp only [Bool.false_eq_true, if_false, ok_bind, asTimestamp] at hok
    rw [if_neg (show ¬ lm ≥ env.mbstate.max_last_modified by omega)] at hok
    simp only [jContains, ok_bind] at hok
    split at hok
    · rw [pure_ok_iff] at hok
      subst hok
      simp only [List.mem_cons, List.not_mem_nil, or_false] at hr
      rcases hr with rfl | rfl
      · intro he
        exact absurd he (show ¬ "Item::exists" = "Item::outdated mb state" by decide)
      · intro he
        exact absurd he
          (show ¬ "Metadata::missing metadata key" = "Item::outdated mb state" by decide)
    · simp only [bind_ok_iff, pure_ok_iff] at hok
      obtain ⟨ms, hms, fs, hfs, is', his, hfinal⟩ := hok
      subst hfinal
      simp only [List.mem_append, List.mem_singleton] at hr
      rcases hr with ((rfl | hr) | hr) | hr
      · intro he
        exact absurd he (show ¬ "Item::exists" = "Item::outdated mb state" by decide)
      · exact strStarts_ne r.desc "Item::outdated mb state" "Metadata::"
          (run_metadata_checks_starts env.mbstate (.obj kvs) ms hms r hr) (by decide)
      · exact strStarts_ne r.desc "Item::outdated mb state" "Files::"
          (run_files_checks_starts env.mbstate (.obj kvs) fs hfs r hr) (by decide)
      · exact strStarts_ne r.desc "Item::outdated mb state" "CAAIndex::"
          (run_index_checks_starts env.mbstate env.caa_index is' his r hr) (by decide)

/-- Witness for C4 (amended): a concrete outdated item. -/
theorem outdated_mb_state_check_witness :
    run_main c4SampleEnv = .ok [⟨.passed, "relgid", "Item::exists"⟩,
      ⟨.itemSkipped, "relgid", "Item::outdated mb state"⟩] :=
  (outdated_mb_state_check c4SampleEnv [("item_last_modified", .i 200)] 200
    rfl rfl rfl rfl rfl).1 (by decide)

/-- C4 counterexample: at this input the claim's `ia modified` condition
holds — the item has no files at all, so no original file is newer than
`max_last_modified` — yet the task emits an `ItemSkipped` whose
description is `Item::outdated mb state` (not `<base>::ia modified`) and
runs no subsequent stage. -/
theorem ia_modified_counterexample :
    iaModifiedSpecCheck c4SampleEnv = true ∧
    run_main c4SampleEnv = .ok [⟨.passed, "relgid", "Item::exists"⟩,
      ⟨.itemSkipped, "relgid", "Item::outdated mb state"⟩] ∧
    ((run_env c4SampleEnv).results.filter
      (fun r => r.state == .itemSkipped)).map (fun r => r.desc) =
        ["Item::outdated mb state"] :=
  ⟨rfl, rfl, rfl⟩

/-- C5 (amended): the metadata check `creators correct` passes if and only
if the observed creator values and the catalog artist names are equal AS
SETS (`set(...) == set(...)` in the source): order and multiplicity are
ignored.  The stage emits exactly one result with this description, with
outcome `pySetEq`. -/
theorem creators_correct_set_semantics (mb : MBState) (ia : JVal) (rs : List CheckResult)
    (md : JVal) (cs : List JVal)
    (hmd : jSub ia "metadata" = .ok md)
    (hcs : getAsList md "creator" = .ok cs)
    (hok : run_metadata_checks mb ia = .ok rs) :
    rs.filter (fun r => r.desc == "Metadata::creators correct") =
      [simpleCheck mb.release_gid "Metadata::creators correct"
        (pySetEq cs (mb.artists.map (fun a => JVal.s a.artist_name)))] := by
  unfold run_metadata_checks at hok
  simp only [bind_ok_iff, pure_ok_iff] at hok
  obtain ⟨metadata, hm, collections, hc, noindex, hn, mediatype, hmt, title, ht,
    creators, hcr, u1, hu1, date, hd, language, hl, ext, hext, u2, hu2, hfinal⟩ := hok
  rw [hmd] at hm
  injection hm with hm
  subst hm
  rw [hcs] at hcr
  injection hcr with hcr
  subst hcr
  subst hfinal
  have hnd := getSingle_desc _ _ _ _ _ hn
  have hmtd := getSingle_desc _ _ _ _ _ hmt
  have htd := getSingle_desc _ _ _ _ _ ht
  have hdd := getSingle_desc _ _ _ _ _ hd
  simp only [List.filter_append, List.filter_cons, List.filter_nil, hnd, hmtd, htd, hdd,
    simpleCheck_desc]
  rw [List.filter_map, List.filter_map]
  simp [simpleCheck_desc, Function.comp]

/-- Witness for C5 (amended) at the concrete reversed-order input. -/
theorem creators_correct_set_semantics_witness :
    ∃ rs, run_metadata_checks mb5 ia5 = .ok rs ∧
      rs.filter (fun r => r.desc == "Metadata::creators correct") =
        [simpleCheck mb5.release_gid "Metadata::creators correct"
          (pySetEq [.s "B", .s "A"] (mb5.artists.map (fun a => JVal.s a.artist_name)))] := by
  refine ⟨_, rfl, ?_⟩
  exact creators_correct_set_semantics mb5 ia5 _ meta5 [.s "B", .s "A"] rfl rfl rfl

/-- C5 counterexample: catalog artists `[A, B]`, remote creators `[B, A]`:
the ordered lists differ, yet `creators correct` passes. -/
theorem creators_ordered_counterexample :
    (⟨.passed, "relgid", "Metadata::creators correct"⟩ : CheckResult) ∈
      okResults (run_metadata_checks mb5 ia5) ∧
    getAsList meta5 "creator" = .ok [.s "B", .s "A"] ∧
    mb5.artists.map (fun a => a.artist_name) = ["A", "B"] ∧
    (["B", "A"] : List String) ≠ ["A", "B"] :=
  ⟨by decide, rfl, rfl, by decide⟩

/-- C6 (amended): the expected external-identifier set is
`{urn:mb_release_id:<gid>} ∪ {urn:mb_artist_id:<a.gid>} ∪ {urn:asin:<asin>}
∪ {urn:barcode:<barcode>}` where the barcode entry uses URN type `barcode`
(not `upc`) and is built unconditionally — when the catalog has no
barcode the string `None` is interpolated. -/
theorem expected_ext_ids_characterization (mb : MBState) (x : String) :
    x ∈ expectedExtIds mb ↔
      x = "urn:mb_release_id:" ++ mb.release_gid ∨
      (∃ a ∈ mb.artists, x = "urn:mb_artist_id:" ++ a.artist_gid) ∨
      (∃ s ∈ mb.asins, x = "urn:asin:" ++ s) ∨
      x = "urn:barcode:" ++ pyStrOpt mb.barcode := by
  simp only [expectedExtIds, List.mem_cons, List.mem_append, List.mem_map,
    List.not_mem_nil, or_false]
  constructor
  · rintro (rfl | ((⟨a, ha, rfl⟩ | ⟨s, hs, rfl⟩) | rfl))
    · exact Or.inl rfl
    · exact Or.inr (Or.inl ⟨a, ha, rfl⟩)
    · exact Or.inr (Or.inr (Or.inl ⟨s, hs, rfl⟩))
    · exact Or.inr (Or.inr (Or.inr rfl))
  · rintro (rfl | ⟨a, ha, rfl⟩ | ⟨s, hs, rfl⟩ | rfl)
    · exact Or.inl rfl
    · exact Or.inr (Or.inl (Or.inl ⟨a, ha, rfl⟩))
    · exact Or.inr (Or.inl (Or.inr ⟨s, hs, rfl⟩))
    · exact Or.inr (Or.inr rfl)

/-- C6 counterexample: with a barcode present, no `urn:upc:` identifier is
expected (the code builds `urn:barcode:` instead), and without a barcode
the set still contains the barcode-derived entry `urn:barcode:None`. -/
theorem expected_ext_ids_counterexample :
    "urn:upc:786936718218" ∉ expectedExtIds mb6 ∧
    "urn:barcode:786936718218" ∈ expectedExtIds mb6 ∧
    "urn:barcode:None" ∈ expectedExtIds mb6nb :=
  ⟨by decide, by decide, by decide⟩

/-- C7 (code bug): `has_file` returns `get_file(name) is None`, so the
existence checks are inverted — with an original `index.json` in the
file list the check `Files::index.json exists` FAILS, and with an empty
file list both existence checks pass.  (The companion check also searches
for the literal name `mb_metadata.xml` rather than
`mbid-<MBID>_mb_metadata.xml`, and neither check restricts to
`source == 'original'`.) -/
theorem files_exists_checks_inverted :
    run_files_checks mbEmpty c7SampleMeta =
      .ok [⟨.failed, "relgid", "Files::index.json exists"⟩,
           ⟨.passed, "relgid", "Files::mb_metadata.xml exists"⟩] ∧
    run_files_checks mbEmpty (.obj []) =
      .ok [⟨.passed, "relgid", "Files::index.json exists"⟩,
           ⟨.passed, "relgid", "Files::mb_metadata.xml exists"⟩] :=
  ⟨rfl, rfl⟩

/-- C8 (code bug): the success condition of `CAAIndex::Image::missing
image` is `len(matching_covers) > 1`, so a catalog image id appearing in
exactly one index entry is reported missing, while `image id is unique`
passes for it. -/
theorem caaindex_missing_image_bug :
    (run_index_checks mb8 (some (some idx8))).isOk = true ∧
    (⟨.failed, "relgid", "CAAIndex::Image::missing image"⟩ : CheckResult) ∈
      okResults (run_index_checks mb8 (some (some idx8))) ∧
    (⟨.failed, "relgid", "CAAIndex::Image::image id is unique"⟩ : CheckResult) ∉
      okResults (run_index_checks mb8 (some (some idx8))) ∧
    (imagesMatching [img8] 1).map (fun l => l.length) = .ok 1 := by
  refine ⟨by decide, by decide, by decide, rfl⟩

end CAAAudit
